import Mathlib

/-!
# crypto-wallet: a verification development

A shallow embedding of the wallet engine of `robertarktes/crypto-wallet`
(`internal/crypto/keys.go`, `internal/wallet/wallet.go`,
`internal/blockchain/client.go`) and theorems about it.

Conventions of the embedding.

* Go strings are lists of characters, Go byte slices are lists of naturals
  below 256.
* A Go `*big.Float` that is finite is a `BigFloat`: sign, mantissa, binary
  exponent and precision, of value `(-1)^neg * mant * 2^exp`.  Infinities are
  not represented.
* A Go function that can stop with a run-time panic returns an `Option`; `none`
  is the panic.  A Go `(value, error)` pair is a Lean pair whose second
  component is an `Option GoError`.
* Functions of the Go standard library and of go-ethereum are not part of the
  repository.  The arithmetic and text functions of `math/big` and
  `encoding/hex` are written out after their documentation; the elliptic-curve
  and hashing primitives are fields of the structure `Lib`.
* The node behind the client is a `Node`: its answer to a request is a function
  of the events so far, and every operation returns the events after it.  The
  file system and the JSON codec are an `OS` over a type of stores.
-/

namespace CryptoWallet

/-! ## `math/big`: the part the wallet uses -/

/-- A finite `big.Float`: the value is `(-1)^neg * mant * 2^exp`; `prec` is the
mantissa width in bits that results are rounded to. -/
structure BigFloat where
  neg : Bool
  mant : Nat
  exp : Int
  prec : Nat
deriving DecidableEq, Repr

/-- Numerator of the magnitude of a `BigFloat` as a fraction `absNum / absDen`. -/
def BigFloat.absNum (x : BigFloat) : Nat := x.mant * 2 ^ x.exp.toNat

/-- Denominator of the magnitude of a `BigFloat` as a fraction `absNum / absDen`. -/
def BigFloat.absDen (x : BigFloat) : Nat := 2 ^ (-x.exp).toNat

/-- Rounding of the fraction `num / den` to the nearest natural number, ties to
the even neighbour. -/
def roundHalfEven (num den : Nat) : Nat :=
  let q := num / den
  let r := num % den
  if 2 * r < den then q
  else if den < 2 * r then q + 1
  else if q % 2 = 0 then q else q + 1

/-- Number of binary digits of `n`, by repeated halving, at most `fuel` of them. -/
def bitLenAux : Nat → Nat → Nat
  | 0, _ => 0
  | fuel + 1, n => if n = 0 then 0 else bitLenAux fuel (n / 2) + 1

/-- The method `(*big.Int).BitLen`: the length of the magnitude in bits, 0 for 0. -/
def BitLen (n : Nat) : Nat := bitLenAux n n

/-- Rounding of the positive fraction `num / den` to a mantissa of `prec` bits,
to nearest, ties to even (the default mode `big.ToNearestEven`): the result
`(m, e)` stands for `m * 2^e`. -/
def roundToPrec (prec num den : Nat) : Nat × Int :=
  if num = 0 then (0, 0)
  else
    let e0 : Int := (BitLen num : Int) - (BitLen den : Int) - (prec : Int)
    let e : Int :=
      if 2 ^ prec * (den * 2 ^ e0.toNat) ≤ num * 2 ^ (-e0).toNat then e0 + 1 else e0
    (roundHalfEven (num * 2 ^ (-e).toNat) (den * 2 ^ e.toNat), e)

/-- The method `(*big.Float).SetInt` on a fresh receiver (precision 0): the
value is exact and the precision becomes the larger of the bit length of the
integer and 64. -/
def BigFloat.SetInt (x : Int) : BigFloat :=
  { neg := decide (x < 0), mant := x.natAbs, exp := 0, prec := max (BitLen x.natAbs) 64 }

/-- The constant `big.NewFloat(1e18)`: precision 53, and `10^18 = 2^18 * 5^18`
with `5^18 < 2^53` is held exactly. -/
def NewFloat_1e18 : BigFloat :=
  { neg := false, mant := 10 ^ 18, exp := 0, prec := 53 }

/-- The method `(*big.Float).Quo` on a fresh receiver (precision 0, mode
`ToNearestEven`): the quotient `x / y` rounded to the larger of the two
precisions.  A finite non-zero value divided by zero is an infinity and zero
divided by zero panics; both are `none` here. -/
def BigFloat.Quo (x y : BigFloat) : Option BigFloat :=
  if y.mant = 0 then none
  else
    let p := max x.prec y.prec
    if x.mant = 0 then some { neg := xor x.neg y.neg, mant := 0, exp := 0, prec := p }
    else
      let r := roundToPrec p x.mant y.mant
      some { neg := xor x.neg y.neg, mant := r.1, exp := r.2 + x.exp - y.exp, prec := p }

/-- The method `(*big.Float).Int`: the value truncated towards zero. -/
def BigFloat.truncInt (x : BigFloat) : Int :=
  let t : Nat := x.absNum / x.absDen
  if x.neg then -(t : Int) else (t : Int)

/-- The decimal digit `d` as a character. -/
def digitChar (d : Nat) : Char := Char.ofNat (48 + d % 10)

/-- The last `width` decimal digits of `n`, most significant first. -/
def fixedDigits : Nat → Nat → List Char
  | 0, _ => []
  | w + 1, n => digitChar (n / 10 ^ w) :: fixedDigits w n

/-- Decimal digits of `n` without leading zeros, prepended to `acc`. -/
def natDigitsAux : Nat → Nat → List Char → List Char
  | 0, _, acc => acc
  | fuel + 1, n, acc =>
    if n < 10 then digitChar n :: acc
    else natDigitsAux fuel (n / 10) (digitChar n :: acc)

/-- Decimal numeral of `n`, as `(*big.Int).String` writes a non-negative
integer. -/
def natDigits (n : Nat) : List Char := natDigitsAux (n + 1) n []

/-- The method `(*big.Float).Text` with format `'f'` and `prec` digits after
the point: the exact decimal expansion of the value rounded half to even at
the last printed digit, with a leading `-` when the sign bit is set. -/
def BigFloat.Text_f (x : BigFloat) (prec : Nat) : List Char :=
  let r := roundHalfEven (x.absNum * 10 ^ prec) x.absDen
  (if x.neg then ['-'] else []) ++ natDigits (r / 10 ^ prec) ++
    (if prec = 0 then [] else '.' :: fixedDigits prec r)

/-- Value of a decimal digit character. -/
def digitVal (c : Char) : Option Nat :=
  if '0' ≤ c ∧ c ≤ '9' then some (c.toNat - 48) else none

/-- Value of a non-empty string of decimal digits, continuing from `acc`. -/
def parseDigits : List Char → Nat → Option Nat
  | [], acc => some acc
  | c :: cs, acc =>
    match digitVal c with
    | some d => parseDigits cs (10 * acc + d)
    | none => none

/-- The method `(*big.Int).SetString(s, 10)`: an optional sign followed by at
least one decimal digit; `none` is the result `(nil, false)`. -/
def SetString10 (s : List Char) : Option Int :=
  match s with
  | [] => none
  | '-' :: [] => none
  | '+' :: [] => none
  | '-' :: cs => (parseDigits cs 0).map (fun n => -(n : Int))
  | '+' :: cs => (parseDigits cs 0).map (fun n => (n : Int))
  | cs => (parseDigits cs 0).map (fun n => (n : Int))

/-! ## `internal/crypto/keys.go`: unit conversion -/

/-- `WeiToEther`: the local `f` whose precision is set to 236 is never used;
the result is `new(big.Float).Quo(fWei, big.NewFloat(1e18))` with `fWei` set
from the integer.  `none` would be a panic or an infinite result. -/
def WeiToEther (wei : Int) : Option BigFloat :=
  let fWei := BigFloat.SetInt wei
  BigFloat.Quo fWei NewFloat_1e18

/-- `EtherToWei`: the truncated integer part times `10^18`, to which the
eighteen printed fraction digits are added when the printed text starts with
`0.`.  `none` is the nil dereference that a failed `SetString` would cause. -/
def EtherToWei (ether : BigFloat) : Option Int :=
  let truncInt : Int := ether.truncInt * 1000000000000000000
  let fracStr := ether.Text_f 18
  if fracStr.length > 2 ∧ fracStr.take 2 = ['0', '.'] then
    let fracStr := fracStr.drop 2
    let fracStr := if fracStr.length > 18 then fracStr.take 18 else fracStr
    let fracStr :=
      if fracStr.length < 18 then
        fracStr ++ (List.replicate 18 '0').take (18 - fracStr.length)
      else fracStr
    match SetString10 fracStr with
    | some fracInt => some (truncInt + fracInt)
    | none => none
  else some truncInt

/-! ## Errors, bytes and the external libraries -/

/-- A Go byte slice. -/
abbrev Bytes := List Nat

/-- A Go `error` value: a message, possibly wrapping a cause with `%w`. -/
inductive GoError where
  | errorf (msg : String)
  | wrap (msg : String) (cause : GoError)
deriving DecidableEq, Repr

/-- The slice expression `s[i:]`, which panics when `i` exceeds the length. -/
def sliceFrom {α : Type} (s : List α) (i : Nat) : Option (List α) :=
  if i ≤ s.length then some (s.drop i) else none

/-- The built-in `copy(dst, src)` into a zeroed array of `n` bytes: the first
`min n (len src)` bytes are overwritten. -/
def copyInto (n : Nat) (src : Bytes) : Bytes :=
  src.take n ++ List.replicate (n - src.length) 0

/-- An elliptic-curve point, `ecdsa.PublicKey`. -/
structure PublicKey where
  X : Nat
  Y : Nat
deriving DecidableEq, Repr

/-- A private key, `ecdsa.PrivateKey`: the scalar `D` and the embedded public
key. -/
structure PrivateKey where
  D : Nat
  PublicKey : PublicKey
deriving DecidableEq, Repr

/-- A 20-byte account identifier, `common.Address`. -/
abbrev Address := List Nat

/-- An unsigned value transfer, as built by `types.NewTransaction`. -/
structure Transaction where
  nonce : Nat
  toAddr : Address
  value : Int
  gasLimit : Nat
  gasPrice : Int
  data : Bytes
deriving DecidableEq, Repr

/-- A signed transaction: the transaction, the chain id bound into the signing
hash and the signature. -/
structure SignedTx where
  tx : Transaction
  chainID : Int
  signature : Bytes
deriving DecidableEq, Repr

/-- The primitives of go-ethereum and of the Go standard library that the
wallet calls and that are not part of the repository. -/
structure Lib where
  /-- The function `crypto.Keccak256`. -/
  Keccak256 : Bytes → Bytes
  /-- The method `S256().ScalarBaseMult`: the public point of a scalar. -/
  ScalarBaseMult : Nat → PublicKey
  /-- The function `crypto.FromECDSAPub`: the uncompressed encoding of a point. -/
  FromECDSAPub : PublicKey → Bytes
  /-- The function `crypto.Sign(hash, prv)`. -/
  Sign : Bytes → PrivateKey → Except GoError Bytes
  /-- The function `crypto.Ecrecover(hash, sig)`. -/
  Ecrecover : Bytes → Bytes → Except GoError Bytes
  /-- The function `types.SignTx(tx, types.NewEIP155Signer(chainID), prv)`. -/
  SignTx : Transaction → Int → PrivateKey → Except GoError SignedTx
  /-- The expression `signedTx.Hash().Hex()`. -/
  TxHashHex : SignedTx → List Char
  /-- The function `strings.ToLower`. -/
  ToLower : List Char → List Char

/-! ## `encoding/hex` and `common`: hexadecimal text -/

/-- Value of a hexadecimal digit, as in the table `reverseHexTable`. -/
def hexVal (c : Char) : Option Nat :=
  if '0' ≤ c ∧ c ≤ '9' then some (c.toNat - 48)
  else if 'a' ≤ c ∧ c ≤ 'f' then some (c.toNat - 87)
  else if 'A' ≤ c ∧ c ≤ 'F' then some (c.toNat - 55)
  else none

/-- The lower-case hexadecimal digit of a value below 16. -/
def hexDigit (d : Nat) : Char :=
  if d % 16 < 10 then Char.ofNat (48 + d % 16) else Char.ofNat (87 + d % 16)

/-- The function `hex.EncodeToString`: two lower-case digits per byte. -/
def hexEncode : Bytes → List Char
  | [] => []
  | b :: bs => hexDigit (b / 16) :: hexDigit b :: hexEncode bs

/-- The function `hex.DecodeString`: the bytes decoded before the first
problem, and the error for a non-hexadecimal character or an odd length. -/
def hexDecode : List Char → Bytes × Option GoError
  | [] => ([], none)
  | [p] =>
    if (hexVal p).isNone then ([], some (.errorf "encoding/hex: invalid byte"))
    else ([], some (.errorf "encoding/hex: odd length hex string"))
  | p :: q :: rest =>
    match hexVal p, hexVal q with
    | some a, some b => ((16 * a + b) :: (hexDecode rest).1, (hexDecode rest).2)
    | _, _ => ([], some (.errorf "encoding/hex: invalid byte"))

/-- The helper `has0xPrefix` of package `common`. -/
def has0xPrefix (str : List Char) : Bool :=
  match str with
  | c0 :: c1 :: _ => c0 == '0' && (c1 == 'x' || c1 == 'X')
  | _ => false

/-- The helper `isHex` of package `common`: even length and only hexadecimal
digits. -/
def isHex (str : List Char) : Bool :=
  if str.length % 2 ≠ 0 then false else str.all (fun c => (hexVal c).isSome)

/-- The function `common.IsHexAddress`. -/
def IsHexAddress (s : List Char) : Bool :=
  let s := if has0xPrefix s then s.drop 2 else s
  s.length == 2 * 20 && isHex s

/-- The function `common.BytesToAddress`: the last 20 bytes, padded on the left
with zeros. -/
def BytesToAddress (b : Bytes) : Address :=
  let b := if b.length > 20 then b.drop (b.length - 20) else b
  List.replicate (20 - b.length) 0 ++ b

/-- Number of bytes of a character in UTF-8. -/
def utf8Size (c : Char) : Nat :=
  if c.toNat < 128 then 1 else if c.toNat < 2048 then 2 else if c.toNat < 65536 then 3 else 4

/-- The built-in `len` of a Go string: its length in bytes. -/
def utf8Len (s : List Char) : Nat := (s.map utf8Size).sum

/-- The function `common.FromHex`: the prefix is dropped, a text of odd length
in bytes gets a leading `0`, and decoding errors are ignored, so that the
bytes before the first character that is no hexadecimal digit are returned. -/
def FromHex (s : List Char) : Bytes :=
  let s := if has0xPrefix s then s.drop 2 else s
  let s := if utf8Len s % 2 = 1 then '0' :: s else s
  (hexDecode s).1

/-- The function `common.HexToAddress`. -/
def common_HexToAddress (s : List Char) : Address := BytesToAddress (FromHex s)

/-- The method `Address.Hex`: `0x` followed by the forty digits, a letter in
upper case when the matching nibble of the Keccak hash of the lower-case
digits exceeds 7 (EIP-55). -/
def Address.Hex (lib : Lib) (a : Address) : List Char :=
  let digits := hexEncode a
  let hash := lib.Keccak256 (digits.map Char.toNat)
  let cased := digits.enum.map (fun (ic : Nat × Char) =>
    let hashByte := hash.getD (ic.1 / 2) 0
    let nib := if ic.1 % 2 = 0 then hashByte / 16 else hashByte % 16
    if '9' < ic.2 ∧ nib > 7 then Char.ofNat (ic.2.toNat - 32) else ic.2)
  '0' :: 'x' :: cased

/-- Big-endian value of a byte string, as `(*big.Int).SetBytes`. -/
def bytesToNat (b : Bytes) : Nat := b.foldl (fun acc x => 256 * acc + x) 0

/-- The order of the group of the curve secp256k1. -/
def secp256k1N : Nat :=
  0xFFFFFFFFFFFFFFFFFFFFFFFFFFFFFFFEBAAEDCE6AF48A03BBFD25E8CD0364141

/-- The function `crypto.ToECDSA`: exactly 32 bytes whose value lies strictly
between 0 and the group order. -/
def ToECDSA (lib : Lib) (d : Bytes) : Except GoError PrivateKey :=
  if 8 * d.length ≠ 256 then .error (.errorf "invalid length, need 256 bits")
  else if secp256k1N ≤ bytesToNat d then .error (.errorf "invalid private key, >=N")
  else if bytesToNat d = 0 then .error (.errorf "invalid private key, zero or negative")
  else .ok { D := bytesToNat d, PublicKey := lib.ScalarBaseMult (bytesToNat d) }

/-- The function `crypto.PubkeyToAddress`: the last 20 bytes of the Keccak hash
of the encoded point without its leading format byte. -/
def PubkeyToAddress (lib : Lib) (p : PublicKey) : Address :=
  BytesToAddress ((lib.Keccak256 ((lib.FromECDSAPub p).drop 1)).drop 12)

/-- The last `n` base-256 digits of `v`, most significant first. -/
def paddedBytes : Nat → Nat → Bytes
  | 0, _ => []
  | n + 1, v => (v / 256 ^ n) % 256 :: paddedBytes n v

/-- The function `crypto.FromECDSA`: the scalar as 32 big-endian bytes. -/
def FromECDSA (priv : PrivateKey) : Bytes := paddedBytes 32 priv.D

/-! ## `internal/crypto/keys.go`: keys and signatures -/

/-- The struct `KeyPair`. -/
structure KeyPair where
  PrivateKey : PrivateKey
  PublicKey : PublicKey
  Address : Address
deriving DecidableEq, Repr

/-- `GenerateKeyPair`; `gen` is the outcome of `crypto.GenerateKey()`. -/
def GenerateKeyPair (lib : Lib) (gen : Except GoError PrivateKey) :
    Option KeyPair × Option GoError :=
  match gen with
  | .error err => (none, some (.wrap "error generating private key" err))
  | .ok privateKey =>
    let publicKeyECDSA := privateKey.PublicKey
    let address := PubkeyToAddress lib publicKeyECDSA
    (some { PrivateKey := privateKey, PublicKey := publicKeyECDSA, Address := address }, none)

/-- `KeyPair.GetPrivateKeyHex`. -/
def KeyPair.GetPrivateKeyHex (kp : KeyPair) : List Char := hexEncode (FromECDSA kp.PrivateKey)

/-- `KeyPair.GetPublicKeyHex`. -/
def KeyPair.GetPublicKeyHex (lib : Lib) (kp : KeyPair) : List Char :=
  hexEncode (lib.FromECDSAPub kp.PublicKey)

/-- `KeyPair.GetAddressHex`. -/
def KeyPair.GetAddressHex (lib : Lib) (kp : KeyPair) : List Char := Address.Hex lib kp.Address

/-- `KeyPair.SignMessage`. -/
def KeyPair.SignMessage (lib : Lib) (kp : KeyPair) (message : Bytes) :
    Bytes × Option GoError :=
  let hash := lib.Keccak256 message
  match lib.Sign hash kp.PrivateKey with
  | .error err => ([], some (.wrap "error signing message" err))
  | .ok signature => (signature, none)

/-- `VerifySignature`; `none` is an out-of-range slice expression. -/
def VerifySignature (lib : Lib) (message signature : Bytes) (address : Address) :
    Option Bool :=
  let hash := lib.Keccak256 message
  match lib.Ecrecover hash signature with
  | .error _ => some false
  | .ok sigPublicKey =>
    match sliceFrom sigPublicKey 1 with
    | none => none
    | some body =>
      match sliceFrom (lib.Keccak256 body) 12 with
      | none => none
      | some tail =>
        let signerAddr : Address := copyInto 20 tail
        some (decide (signerAddr = address))

/-- `IsValidAddress`. -/
def IsValidAddress (address : List Char) : Bool := IsHexAddress address

/-- `HexToAddress`. -/
def HexToAddress (hex : List Char) : Address × Option GoError :=
  if !IsHexAddress hex then
    (List.replicate 20 0, some (.errorf ("invalid Ethereum address: " ++ String.mk hex)))
  else (common_HexToAddress hex, none)

/-! ## `internal/blockchain/client.go`: the gateway -/

/-- The request `ethereum.CallMsg` of a gas estimate. -/
structure CallMsg where
  From : Address
  To : Address
  Value : Int
  Data : Bytes
deriving DecidableEq, Repr

/-- The part of `types.Receipt` that the wallet reads. -/
structure Receipt where
  Status : Nat
  BlockNumber : Nat
  GasUsed : Nat
deriving DecidableEq, Repr

/-- What the client does that is visible outside the process: a request to the
node, or a pause. -/
inductive Event where
  | BalanceAt (address : Address)
  | SuggestGasPrice
  | PendingNonceAt (address : Address)
  | NetworkID
  | SendTransaction (tx : SignedTx)
  | TransactionReceipt (txHash : Bytes)
  | EstimateGas (msg : CallMsg)
  | Sleep (seconds : Nat)
deriving DecidableEq, Repr

/-- The node behind `ethclient.Client`.  The answer to a request may depend on
everything that happened before it, given as the list of earlier events. -/
structure Node where
  BalanceAt : List Event → Address → Except GoError Int
  SuggestGasPrice : List Event → Except GoError Int
  PendingNonceAt : List Event → Address → Except GoError Nat
  NetworkID : List Event → Except GoError Int
  SendTransaction : List Event → SignedTx → Option GoError
  TransactionReceipt : List Event → Bytes → Option Receipt × Option GoError
  EstimateGas : List Event → CallMsg → Except GoError Nat

/-- The struct `Client`. -/
structure Client where
  client : Node
  url : List Char

/-- `Client.GetGasPrice`. -/
def Client.GetGasPrice (c : Client) (h : List Event) : (Int × Option GoError) × List Event :=
  match c.client.SuggestGasPrice h with
  | .error err => ((0, some (.wrap "error getting gas price" err)), h ++ [Event.SuggestGasPrice])
  | .ok gasPrice => ((gasPrice, none), h ++ [Event.SuggestGasPrice])

/-- `Client.GetNonce`. -/
def Client.GetNonce (c : Client) (address : Address) (h : List Event) :
    (Nat × Option GoError) × List Event :=
  match c.client.PendingNonceAt h address with
  | .error err => ((0, some (.wrap "error getting nonce" err)), h ++ [Event.PendingNonceAt address])
  | .ok nonce => ((nonce, none), h ++ [Event.PendingNonceAt address])

/-- `Client.GetNetworkID`. -/
def Client.GetNetworkID (c : Client) (h : List Event) : (Int × Option GoError) × List Event :=
  match c.client.NetworkID h with
  | .error err => ((0, some (.wrap "error getting network ID" err)), h ++ [Event.NetworkID])
  | .ok networkID => ((networkID, none), h ++ [Event.NetworkID])

/-- `Client.SendTransaction`. -/
def Client.SendTransaction (c : Client) (tx : SignedTx) (h : List Event) :
    Option GoError × List Event :=
  match c.client.SendTransaction h tx with
  | some err => (some (.wrap "error sending transaction" err), h ++ [Event.SendTransaction tx])
  | none => (none, h ++ [Event.SendTransaction tx])

/-- `Client.CreateTransaction`: the sender is not part of the transaction. -/
def Client.CreateTransaction (_c : Client) (_from : Address) (toAddr : Address) (value : Int)
    (gasLimit : Nat) (gasPrice : Int) (nonce : Nat) (data : Bytes) : Transaction :=
  { nonce := nonce, toAddr := toAddr, value := value, gasLimit := gasLimit,
    gasPrice := gasPrice, data := data }

/-- Base-256 digits of `v`, most significant first, without leading zeros,
prepended to `acc`. -/
def natBytesAux : Nat → Nat → Bytes → Bytes
  | 0, _, acc => acc
  | fuel + 1, v, acc => if v = 0 then acc else natBytesAux fuel (v / 256) (v % 256 :: acc)

/-- The method `(*big.Int).Bytes`: the magnitude in big-endian bytes, empty for
zero. -/
def bigIntBytes (x : Int) : Bytes := natBytesAux x.natAbs x.natAbs []

/-- `Client.SignTransaction`. -/
def Client.SignTransaction (lib : Lib) (c : Client) (tx : Transaction) (privateKey : Int)
    (h : List Event) : (Option SignedTx × Option GoError) × List Event :=
  match c.GetNetworkID h with
  | ((_, some err), h1) => ((none, some (.wrap "error getting network ID for signing" err)), h1)
  | ((networkID, none), h1) =>
    let privateKeyBytes := bigIntBytes privateKey
    let privateKeyBytes :=
      if privateKeyBytes.length < 32 then
        List.replicate (32 - privateKeyBytes.length) 0 ++ privateKeyBytes
      else privateKeyBytes
    match ToECDSA lib privateKeyBytes with
    | .error err => ((none, some (.wrap "error converting private key" err)), h1)
    | .ok ecdsaPrivateKey =>
      match lib.SignTx tx networkID ecdsaPrivateKey with
      | .error err => ((none, some (.wrap "error signing transaction" err)), h1)
      | .ok signedTx => ((some signedTx, none), h1)

/-- `Client.EstimateGas`. -/
def Client.EstimateGas (c : Client) (sender : Address) (toAddr : Address) (value : Int)
    (data : Bytes) (h : List Event) : (Nat × Option GoError) × List Event :=
  let msg : CallMsg := { From := sender, To := toAddr, Value := value, Data := data }
  match c.client.EstimateGas h msg with
  | .error err => ((0, some (.wrap "error estimating gas" err)), h ++ [Event.EstimateGas msg])
  | .ok gasLimit => ((gasLimit, none), h ++ [Event.EstimateGas msg])

/-! ## `internal/wallet/wallet.go` -/

/-- The struct `Wallet`; a nil `KeyPair` is `none`. -/
structure Wallet where
  KeyPair : Option KeyPair
  Blockchain : Client
  WalletFile : List Char

/-- The struct `WalletData`, the persisted record. -/
structure WalletData where
  PrivateKey : List Char
  PublicKey : List Char
  Address : List Char
deriving DecidableEq, Repr

/-- Value of a string of hexadecimal digits, continuing from `acc`. -/
def parseHexDigits : List Char → Nat → Option Nat
  | [], acc => some acc
  | c :: cs, acc =>
    match hexVal c with
    | some d => parseHexDigits cs (16 * acc + d)
    | none => none

/-- The call `privateKeyInt.SetString(s, 16)` on a fresh integer whose result
flag is ignored: an optional sign and the value of the hexadecimal digits.
The library leaves the value unspecified when the text is not a numeral; it is
0 here. -/
def SetString16 (s : List Char) : Int :=
  match s with
  | '-' :: cs => -(((parseHexDigits cs 0).getD 0 : Nat) : Int)
  | '+' :: cs => (((parseHexDigits cs 0).getD 0 : Nat) : Int)
  | cs => (((parseHexDigits cs 0).getD 0 : Nat) : Int)

/-- `Wallet.SendTransaction`, started after the events `h`: the pair of hash
and error, and the events after the call.  `none` is a run-time panic. -/
def Wallet.SendTransaction (lib : Lib) (w : Wallet) (toAddress : List Char)
    (amount : BigFloat) (h : List Event) :
    Option ((List Char × Option GoError) × List Event) :=
  match w.KeyPair with
  | none => some (([], some (.errorf "wallet not initialized")), h)
  | some kp =>
    if !IsValidAddress toAddress then
      some (([], some (.errorf ("invalid recipient address: " ++ String.mk toAddress))), h)
    else
      let toAddr := common_HexToAddress toAddress
      match EtherToWei amount with
      | none => none
      | some amountWei =>
        match w.Blockchain.GetNonce kp.Address h with
        | ((_, some err), h1) => some (([], some (.wrap "error getting nonce" err)), h1)
        | ((nonce, none), h1) =>
          match w.Blockchain.GetGasPrice h1 with
          | ((_, some err), h2) => some (([], some (.wrap "error getting gas price" err)), h2)
          | ((gasPrice, none), h2) =>
            let est := w.Blockchain.EstimateGas kp.Address toAddr amountWei [] h2
            let gasLimit := if est.1.2.isSome then 21000 else est.1.1
            let tx := w.Blockchain.CreateTransaction kp.Address toAddr amountWei gasLimit
              gasPrice nonce []
            let privateKeyInt := SetString16 kp.GetPrivateKeyHex
            match w.Blockchain.SignTransaction lib tx privateKeyInt est.2 with
            | ((_, some err), h4) => some (([], some (.wrap "error signing transaction" err)), h4)
            | ((none, none), _) => none
            | ((some signedTx, none), h4) =>
              match w.Blockchain.SendTransaction signedTx h4 with
              | (some err, h5) => some (([], some (.wrap "error sending transaction" err)), h5)
              | (none, h5) => some ((lib.TxHashHex signedTx, none), h5)

/-- `Wallet.restoreKeyPair`. -/
def Wallet.restoreKeyPair (lib : Lib) (_w : Wallet) (walletData : WalletData) :
    Option CryptoWallet.KeyPair × Option GoError :=
  match hexDecode walletData.PrivateKey with
  | (_, some err) => (none, some (.wrap "error decoding private key" err))
  | (privateKeyBytes, none) =>
    match ToECDSA lib privateKeyBytes with
    | .error err => (none, some (.wrap "error restoring private key" err))
    | .ok privateKey =>
      let publicKeyECDSA := privateKey.PublicKey
      let address := PubkeyToAddress lib publicKeyECDSA
      if lib.ToLower (Address.Hex lib address) ≠ lib.ToLower walletData.Address then
        (none, some (.errorf ("address mismatch: expected " ++ String.mk walletData.Address
          ++ ", got " ++ String.mk (Address.Hex lib address))))
      else
        (some { PrivateKey := privateKey, PublicKey := publicKeyECDSA, Address := address }, none)

/-! ## A small instance of the libraries and of the node

The definitions below only serve to run the embedding on concrete inputs. -/

/-- A stand-in for the external primitives: the hash pads or cuts to 32
bytes, the public point of a scalar `d` is `(d, d + 1)`, a signature is the
encoded public point of the scalar of the signer, which is all the signer
reads of the key, and recovery returns a 65-byte signature unchanged. -/
def toyLib : Lib where
  Keccak256 := fun b => (b ++ List.replicate 32 0).take 32
  ScalarBaseMult := fun d => { X := d, Y := d + 1 }
  FromECDSAPub := fun p => 4 :: (paddedBytes 32 p.X ++ paddedBytes 32 p.Y)
  Sign := fun _ k => .ok (4 :: (paddedBytes 32 k.D ++ paddedBytes 32 (k.D + 1)))
  Ecrecover := fun _ sig =>
    if sig.length = 65 then .ok sig else .error (.errorf "invalid signature length")
  SignTx := fun tx chainID k => .ok { tx := tx, chainID := chainID, signature := paddedBytes 32 k.D }
  TxHashHex := fun stx => '0' :: 'x' :: hexEncode (paddedBytes 32 stx.tx.nonce)
  ToLower := fun s => s.map Char.toLower

/-- A node that answers every request successfully. -/
def okNode : Node where
  BalanceAt := fun _ _ => .ok 0
  SuggestGasPrice := fun _ => .ok 1000000000
  PendingNonceAt := fun _ _ => .ok 7
  NetworkID := fun _ => .ok 11155111
  SendTransaction := fun _ _ => none
  TransactionReceipt := fun _ _ => (some { Status := 1, BlockNumber := 1, GasUsed := 21000 }, none)
  EstimateGas := fun _ _ => .ok 21000

/-- The private key with scalar 5 under `toyLib`. -/
def toyKey : PrivateKey := { D := 5, PublicKey := toyLib.ScalarBaseMult 5 }

/-- The key pair that `GenerateKeyPair` builds from `toyKey`. -/
def toyKeyPair : KeyPair :=
  { PrivateKey := toyKey, PublicKey := toyKey.PublicKey,
    Address := PubkeyToAddress toyLib toyKey.PublicKey }

/-- An initialised wallet over `okNode`. -/
def toyWallet : Wallet :=
  { KeyPair := some toyKeyPair, Blockchain := { client := okNode, url := [] },
    WalletFile := "wallet.json".toList }

/-- The recipient used in the tests of the repository. -/
def testRecipient : List Char := "0x742d35Cc6634C0532925a3b8D4C9db96C4b4d8b6".toList

/-- The signed transaction that `toyWallet` submits for a transfer of 0 wei to
`testRecipient` over `okNode`. -/
def toySignedTx : SignedTx :=
  { tx := { nonce := 7, toAddr := common_HexToAddress testRecipient, value := 0,
            gasLimit := 21000, gasPrice := 1000000000, data := [] },
    chainID := 11155111, signature := paddedBytes 32 5 }

/-! ## `internal/blockchain/client.go`: balance and receipts -/

/-- The function `common.BytesToHash`: the last 32 bytes, padded on the left
with zeros. -/
def BytesToHash (b : Bytes) : Bytes :=
  let b := if b.length > 32 then b.drop (b.length - 32) else b
  List.replicate (32 - b.length) 0 ++ b

/-- The function `common.HexToHash`. -/
def HexToHash (s : List Char) : Bytes := BytesToHash (FromHex s)

/-- The method `(*big.Int).String`: the decimal numeral, with `-` for a
negative integer. -/
def bigIntString (x : Int) : List Char :=
  if x < 0 then '-' :: natDigits x.natAbs else natDigits x.natAbs

/-- The float of precision `prec` nearest to the integer `±n`, ties to even;
an integer of at most `prec` bits is held exactly. -/
def BigFloat.roundInt (prec : Nat) (neg : Bool) (n : Nat) : BigFloat :=
  if BitLen n ≤ prec then { neg := neg, mant := n, exp := 0, prec := prec }
  else { neg := neg, mant := (roundToPrec prec n 1).1, exp := (roundToPrec prec n 1).2,
         prec := prec }

/-- The method `(*big.Float).SetString` on a fresh receiver, for the text of an
integer: precision 0 becomes 64 and the value is rounded to it.  Other
numerals that the library accepts are not needed here; for them, and for text
that is no numeral, the result is zero. -/
def BigFloat.SetString (s : List Char) : BigFloat :=
  match SetString10 s with
  | some v => BigFloat.roundInt 64 (decide (v < 0)) v.natAbs
  | none => { neg := false, mant := 0, exp := 0, prec := 64 }

/-- The comparison `x.Cmp(y) == 0` of `big.Float`: equal values, whatever the
precision, and `-0` equal to `+0`. -/
def BigFloat.sameValue (x y : BigFloat) : Bool :=
  decide (x.absNum * y.absDen = y.absNum * x.absDen) &&
    (x.neg == y.neg || decide (x.absNum = 0))

/-- `Client.GetBalance`. -/
def Client.GetBalance (c : Client) (address : Address) (h : List Event) :
    (Int × Option GoError) × List Event :=
  match c.client.BalanceAt h address with
  | .error err => ((0, some (.wrap "error getting balance" err)), h ++ [Event.BalanceAt address])
  | .ok balance => ((balance, none), h ++ [Event.BalanceAt address])

/-- `Client.GetBalanceInEther`; a nil float is `none`. -/
def Client.GetBalanceInEther (c : Client) (address : Address) (h : List Event) :
    (Option BigFloat × Option GoError) × List Event :=
  match c.GetBalance address h with
  | ((_, some err), h1) => ((none, some err), h1)
  | ((balance, none), h1) =>
    let fbalance := BigFloat.SetString (bigIntString balance)
    let ethValue := BigFloat.Quo fbalance NewFloat_1e18
    ((ethValue, none), h1)

/-- `Client.GetTransactionReceipt`. -/
def Client.GetTransactionReceipt (c : Client) (txHash : Bytes) (h : List Event) :
    (Option Receipt × Option GoError) × List Event :=
  match c.client.TransactionReceipt h txHash with
  | (_, some err) =>
    ((none, some (.wrap "error getting transaction receipt" err)),
      h ++ [Event.TransactionReceipt txHash])
  | (receipt, none) => ((receipt, none), h ++ [Event.TransactionReceipt txHash])

/-- The loop of `Client.WaitForTransaction` with `n` iterations left: the
receipt it returns from inside the loop, if any, and the events. -/
def Client.waitLoop (c : Client) (txHash : Bytes) : Nat → List Event →
    Option Receipt × List Event
  | 0, h => (none, h)
  | n + 1, h =>
    match c.GetTransactionReceipt txHash h with
    | ((some receipt, none), h1) => (some receipt, h1)
    | (_, h1) => Client.waitLoop c txHash n (h1 ++ [Event.Sleep 5])

/-- `Client.WaitForTransaction`: the counter runs from 0 up to `maxAttempts`,
so a non-positive `maxAttempts` gives no iteration. -/
def Client.WaitForTransaction (c : Client) (txHash : Bytes) (maxAttempts : Int)
    (h : List Event) : (Option Receipt × Option GoError) × List Event :=
  match c.waitLoop txHash maxAttempts.toNat h with
  | (some receipt, h1) => ((some receipt, none), h1)
  | (none, h1) =>
    ((none, some (.errorf ("transaction not confirmed after " ++ toString maxAttempts
      ++ " attempts"))), h1)

/-- The padding of the key bytes in `Client.SignTransaction`: the big-endian
bytes of the integer, extended on the left with zeros to 32 bytes. -/
def Client.keyBytes (privateKey : Int) : Bytes :=
  if (bigIntBytes privateKey).length < 32 then
    List.replicate (32 - (bigIntBytes privateKey).length) 0 ++ bigIntBytes privateKey
  else bigIntBytes privateKey

/-! ## `internal/wallet/wallet.go`: status, persistence -/

/-- `Wallet.GetTransactionStatus`. -/
def Wallet.GetTransactionStatus (w : Wallet) (txHash : List Char) (h : List Event) :
    (Option Receipt × Option GoError) × List Event :=
  match w.Blockchain.GetTransactionReceipt (HexToHash txHash) h with
  | ((_, some err), h1) => ((none, some (.wrap "error getting transaction status" err)), h1)
  | ((receipt, none), h1) => ((receipt, none), h1)

/-- `Wallet.WaitForTransaction`. -/
def Wallet.WaitForTransaction (w : Wallet) (txHash : List Char) (maxAttempts : Int)
    (h : List Event) : (Option Receipt × Option GoError) × List Event :=
  match w.Blockchain.WaitForTransaction (HexToHash txHash) maxAttempts h with
  | ((_, some err), h1) =>
    ((none, some (.wrap "error waiting for transaction confirmation" err)), h1)
  | ((receipt, none), h1) => ((receipt, none), h1)

/-- Whether the error `e` is `cause` or wraps it, directly or through further
wrapping (`errors.Is` along the `%w` chain). -/
def GoError.surfaces : GoError → GoError → Bool
  | .errorf msg, cause => decide (GoError.errorf msg = cause)
  | .wrap msg inner, cause => decide (GoError.wrap msg inner = cause) || inner.surfaces cause

/-- Whether an event is a submission of a transaction to the node. -/
def Event.isSubmit : Event → Bool
  | .SendTransaction _ => true
  | _ => false

/-- Whether an event is a receipt query. -/
def Event.isReceiptQuery : Event → Bool
  | .TransactionReceipt _ => true
  | _ => false

/-- Whether an event is a pause. -/
def Event.isSleep : Event → Bool
  | .Sleep _ => true
  | _ => false

/-- The operating system and the JSON codec as the wallet uses them; `σ` is the
state of the file store.  Reading does not change the store; `MkdirAll` and
`WriteFile` return the store they leave behind, also when they fail. -/
structure OS (σ : Type) where
  /-- The function `os.Stat`, reduced to its error. -/
  Stat : σ → List Char → Option GoError
  /-- The function `os.IsNotExist`. -/
  IsNotExist : Option GoError → Bool
  /-- The function `os.ReadFile`. -/
  ReadFile : σ → List Char → Except GoError Bytes
  /-- The function `filepath.Dir`. -/
  Dir : List Char → List Char
  /-- The function `os.MkdirAll(path, perm)`. -/
  MkdirAll : σ → List Char → Nat → Option GoError × σ
  /-- The function `os.WriteFile(name, data, perm)`. -/
  WriteFile : σ → List Char → Bytes → Nat → Option GoError × σ
  /-- The call `json.MarshalIndent(walletData, "", "  ")`. -/
  MarshalIndent : WalletData → Except GoError Bytes
  /-- The call `json.Unmarshal(data, &walletData)` into a zero record. -/
  Unmarshal : Bytes → Except GoError WalletData

/-- The record that `SaveWallet` builds from a key pair. -/
def KeyPair.walletData (lib : Lib) (kp : KeyPair) : WalletData :=
  { PrivateKey := kp.GetPrivateKeyHex, PublicKey := kp.GetPublicKeyHex lib,
    Address := kp.GetAddressHex lib }

/-- `Wallet.SaveWallet` on the store `s`: the error and the store after the
call.  The permissions are `0755` and `0600`. -/
def Wallet.SaveWallet {σ : Type} (lib : Lib) (os : OS σ) (w : Wallet) (s : σ) :
    Option GoError × σ :=
  match w.KeyPair with
  | none => (some (.errorf "wallet not initialized"), s)
  | some kp =>
    let walletData := kp.walletData lib
    match os.MarshalIndent walletData with
    | .error err => (some (.wrap "error serializing wallet data" err), s)
    | .ok data =>
      let dir := os.Dir w.WalletFile
      match os.MkdirAll s dir 493 with
      | (some err, s1) => (some (.wrap "error creating directory" err), s1)
      | (none, s1) =>
        match os.WriteFile s1 w.WalletFile data 384 with
        | (some err, s2) => (some (.wrap "error writing wallet file" err), s2)
        | (none, s2) => (none, s2)

/-- `Wallet.GenerateNewWallet`; `gen` is the outcome of `crypto.GenerateKey()`.
The result is the error, the wallet after the call and the store after the
call. -/
def Wallet.GenerateNewWallet {σ : Type} (lib : Lib) (os : OS σ)
    (gen : Except GoError PrivateKey) (w : Wallet) (s : σ) :
    Option GoError × Wallet × σ :=
  match GenerateKeyPair lib gen with
  | (_, some err) => (some (.wrap "error generating keys" err), w, s)
  | (keyPair, none) =>
    match Wallet.SaveWallet lib os { w with KeyPair := keyPair } s with
    | (some err, s1) => (some (.wrap "error saving wallet" err), { w with KeyPair := keyPair }, s1)
    | (none, s1) => (none, { w with KeyPair := keyPair }, s1)

/-- `Wallet.LoadWallet` on the store `s`: the error and the wallet after the
call. -/
def Wallet.LoadWallet {σ : Type} (lib : Lib) (os : OS σ) (w : Wallet) (s : σ) :
    Option GoError × Wallet :=
  if os.IsNotExist (os.Stat s w.WalletFile) then
    (some (.errorf ("wallet file not found: " ++ String.mk w.WalletFile)), w)
  else
    match os.ReadFile s w.WalletFile with
    | .error err => (some (.wrap "error reading wallet file" err), w)
    | .ok data =>
      match os.Unmarshal data with
      | .error err => (some (.wrap "error parsing wallet data" err), w)
      | .ok walletData =>
        match w.restoreKeyPair lib walletData with
        | (_, some err) => (some (.wrap "error restoring keys" err), w)
        | (keyPair, none) => (none, { w with KeyPair := keyPair })

/-- A hexadecimal digit, as the helper `isHexCharacter` of package `common`
tests it. -/
def IsHexDigit (c : Char) : Prop :=
  ('0' ≤ c ∧ c ≤ '9') ∨ ('a' ≤ c ∧ c ≤ 'f') ∨ ('A' ≤ c ∧ c ≤ 'F')

/-- Being a hexadecimal digit is decidable. -/
instance instDecidableIsHexDigit (c : Char) : Decidable (IsHexDigit c) := by
  unfold IsHexDigit
  infer_instance

/-- The test `err == nil && receipt != nil` of `Client.WaitForTransaction` on
an answer of the node. -/
def receiptPresent (answer : Option Receipt × Option GoError) : Bool :=
  answer.1.isSome && answer.2.isNone

/-- The events of `j` unsuccessful polling rounds: a receipt query followed by
a pause of 5 seconds, `j` times. -/
def pollEvents (txHash : Bytes) : Nat → List Event
  | 0 => []
  | j + 1 => Event.TransactionReceipt txHash :: Event.Sleep 5 :: pollEvents txHash j

/-- A node that has no receipt for any transaction: every receipt query
fails with `not found`. -/
def noReceiptNode : Node :=
  { okNode with TransactionReceipt := fun _ _ => (none, some (.errorf "not found")) }

/-- A node that has a receipt from the third receipt query on. -/
def thirdQueryNode : Node :=
  { okNode with
    TransactionReceipt := fun h _ =>
      if 2 ≤ (h.filter Event.isReceiptQuery).length then
        (some { Status := 1, BlockNumber := 9, GasUsed := 21000 }, none)
      else (none, some (.errorf "not found")) }

/-- The gas limit that `SendTransaction` uses after the estimate `est`: 21000
when the estimate returned an error. -/
def gasLimitAfter (est : Nat × Option GoError) : Nat :=
  if est.2.isSome then 21000 else est.1

/-- The request for a gas estimate that `SendTransaction` sends. -/
def Wallet.estimateMsg (kp : CryptoWallet.KeyPair) (toAddress : List Char) (amountWei : Int) : CallMsg :=
  { From := kp.Address, To := common_HexToAddress toAddress, Value := amountWei, Data := [] }

/-- The transaction that `SendTransaction` builds with `CreateTransaction`
from the recipient, the converted amount, the nonce, the gas price and the gas
limit. -/
def Wallet.pendingTx (toAddress : List Char) (amountWei : Int) (nonce : Nat) (gasPrice : Int)
    (gasLimit : Nat) : Transaction :=
  { nonce := nonce, toAddr := common_HexToAddress toAddress, value := amountWei,
    gasLimit := gasLimit, gasPrice := gasPrice, data := [] }

/-- A node that answers every request except the gas estimate, which fails. -/
def noEstimateNode : Node :=
  { okNode with EstimateGas := fun _ _ => .error (.errorf "execution reverted") }

/-- A node whose receipt queries all fail with a connection error. -/
def refusingNode : Node :=
  { okNode with TransactionReceipt := fun _ _ => (none, some (.errorf "connection refused")) }

/-- The events that `SendTransaction` has added when it reaches the signing
step: the nonce lookup, the gas-price lookup and the gas estimate. -/
def Wallet.gatherEvents (kp : CryptoWallet.KeyPair) (toAddress : List Char) (amountWei : Int) :
    List Event :=
  [Event.PendingNonceAt kp.Address, Event.SuggestGasPrice,
   Event.EstimateGas (Wallet.estimateMsg kp toAddress amountWei)]

/-- An initialised wallet over `noEstimateNode`. -/
def noEstimateWallet : Wallet :=
  { KeyPair := some toyKeyPair, Blockchain := { client := noEstimateNode, url := [] },
    WalletFile := "wallet.json".toList }

/-- The signed transaction that `noEstimateWallet` submits for a transfer of
half an ether to `testRecipient`. -/
def fallbackSignedTx : SignedTx :=
  { tx := Wallet.pendingTx testRecipient 500000000000000000 7 1000000000 21000,
    chainID := 11155111, signature := paddedBytes 32 5 }

/-- An initialised wallet over `refusingNode`. -/
def refusingWallet : Wallet :=
  { KeyPair := some toyKeyPair, Blockchain := { client := refusingNode, url := [] },
    WalletFile := "wallet.json".toList }

/-- A small file store for running the embedding: the directories, and the
files with their content. -/
structure ToyStore where
  dirs : List (List Char)
  files : List (List Char × Bytes)
deriving DecidableEq, Repr

/-- The path without its last element, `.` when there is no separator; a
stand-in for `filepath.Dir` on paths that are already clean. -/
def toyDir (path : List Char) : List Char :=
  if path.contains '/' then ((path.reverse.dropWhile (fun c => c != '/')).drop 1).reverse
  else ['.']

/-- Pieces of a text between line feeds; `cur` is the piece being read,
reversed. -/
def toySplit : List Char → List Char → List (List Char)
  | [], cur => [cur.reverse]
  | c :: cs, cur =>
    if c = Char.ofNat 10 then cur.reverse :: toySplit cs [] else toySplit cs (c :: cur)

/-- A stand-in for the operating system and the JSON codec.  `MkdirAll`
records the directory and succeeds; `WriteFile` fails on a name that ends in a
separator, which names a directory, and otherwise replaces the file; the
codec writes the three fields on three lines. -/
def toyOS : OS ToyStore where
  Stat := fun s path =>
    if s.files.any (fun f => f.1 == path) || s.dirs.contains path then none
    else some (.errorf "no such file or directory")
  IsNotExist := fun e => e == some (.errorf "no such file or directory")
  ReadFile := fun s path =>
    match s.files.find? (fun f => f.1 == path) with
    | some f => .ok f.2
    | none => .error (.errorf "no such file or directory")
  Dir := toyDir
  MkdirAll := fun s path _ =>
    if s.dirs.contains path then (none, s) else (none, { s with dirs := path :: s.dirs })
  WriteFile := fun s path data _ =>
    if path.getLast? = some '/' then (some (.errorf "is a directory"), s)
    else (none, { s with files := (path, data) :: s.files.filter (fun f => f.1 != path) })
  MarshalIndent := fun wd =>
    .ok ((wd.PrivateKey ++ [Char.ofNat 10] ++ wd.PublicKey ++ [Char.ofNat 10]
      ++ wd.Address).map Char.toNat)
  Unmarshal := fun data =>
    match toySplit (data.map Char.ofNat) [] with
    | [a, b, c] => .ok { PrivateKey := a, PublicKey := b, Address := c }
    | _ => .error (.errorf "unexpected end of JSON input")

/-- The empty file store. -/
def emptyStore : ToyStore := { dirs := [], files := [] }

/-- An initialised wallet whose file name ends in a separator. -/
def slashWallet : Wallet :=
  { KeyPair := some toyKeyPair, Blockchain := { client := okNode, url := [] },
    WalletFile := "wallets/new/".toList }

/-- A node that reports the balance 20000000000000000001 wei. -/
def richNode : Node :=
  { okNode with BalanceAt := fun _ _ => .ok 20000000000000000001 }

/-! ## Theorems: unit conversion -/

/-- Reading back a printed digit. -/
theorem digitVal_digitChar (d : Nat) : digitVal (digitChar d) = some (d % 10) := by
  have h : ∀ k, k < 10 → digitVal (Char.ofNat (48 + k)) = some k := by decide
  exact h (d % 10) (Nat.mod_lt _ (by decide))

/-- A printed digit is not a sign. -/
theorem digitChar_ne_sign (d : Nat) : digitChar d ≠ '-' ∧ digitChar d ≠ '+' := by
  have h : ∀ k, k < 10 → Char.ofNat (48 + k) ≠ '-' ∧ Char.ofNat (48 + k) ≠ '+' := by decide
  exact h (d % 10) (Nat.mod_lt _ (by decide))

/-- The printed digit of a value from 1 to 9 is not `0`. -/
theorem digitChar_ne_zero (d : Nat) (h1 : 1 ≤ d) (h2 : d < 10) : digitChar d ≠ '0' := by
  have h : ∀ k, k < 10 → 1 ≤ k → Char.ofNat (48 + k % 10) ≠ '0' := by decide
  exact h d h2 h1

/-- `fixedDigits w n` has `w` characters. -/
theorem fixedDigits_length (w n : Nat) : (fixedDigits w n).length = w := by
  induction w with
  | zero => rfl
  | succ k ih => simp [fixedDigits, ih]

/-- Parsing the last `w` printed digits of `n` continues the accumulator by
`n % 10^w`. -/
theorem parseDigits_fixedDigits (w n acc : Nat) :
    parseDigits (fixedDigits w n) acc = some (acc * 10 ^ w + n % 10 ^ w) := by
  induction w generalizing acc with
  | zero => simp [fixedDigits, parseDigits, Nat.mod_one]
  | succ k ih =>
    simp only [fixedDigits, parseDigits, digitVal_digitChar, ih]
    congr 1
    rw [Nat.mod_pow_succ]
    ring

/-- `SetString10` on a string that starts with a digit parses the digits. -/
theorem SetString10_digit (d : Nat) (cs : List Char) :
    SetString10 (digitChar d :: cs)
      = (parseDigits (digitChar d :: cs) 0).map (fun n => (n : Int)) := by
  have h := digitChar_ne_sign d
  unfold SetString10
  split <;> simp_all

/-- `SetString10` reads the eighteen printed digits of `n` back as
`n % 10^18`. -/
theorem SetString10_fixedDigits (n : Nat) :
    SetString10 (fixedDigits 18 n) = some ((n % 10 ^ 18 : Nat) : Int) := by
  have h := parseDigits_fixedDigits 18 n 0
  rw [show fixedDigits 18 n = digitChar (n / 10 ^ 17) :: fixedDigits 17 n from rfl] at h ⊢
  rw [SetString10_digit, h]
  simp

/-- The numeral of a positive number starts with a character other than `0`. -/
theorem natDigitsAux_head (f : Nat) : ∀ n acc, 1 ≤ n → n < 10 ^ f →
    ∃ c rest, natDigitsAux f n acc = c :: rest ∧ c ≠ '0' := by
  induction f with
  | zero => intro n acc h1 h2; simp at h2; omega
  | succ k ih =>
    intro n acc h1 h2
    unfold natDigitsAux
    by_cases h : n < 10
    · rw [if_pos h]
      exact ⟨_, _, rfl, digitChar_ne_zero n h1 h⟩
    · rw [if_neg h]
      apply ih
      · omega
      · rw [pow_succ] at h2
        omega

/-- The numeral of a positive number starts with a character other than `0`. -/
theorem natDigits_head (n : Nat) (h1 : 1 ≤ n) :
    ∃ c rest, natDigits n = c :: rest ∧ c ≠ '0' :=
  natDigitsAux_head (n + 1) n [] h1
    (lt_trans (Nat.lt_pow_self (by decide) n)
      (Nat.pow_lt_pow_right (by decide) (Nat.lt_succ_self n)))

/-- What `EtherToWei` computes, for every finite input.  It never panics.  With
`t` the integer part truncated towards zero and `r` the value times `10^18`
rounded half to even: a value with the sign bit set gives `t * 10^18`; a
non-negative value with `r < 10^18` gives `t * 10^18 + r`; every other value
gives `t * 10^18`, without its fraction. -/
theorem EtherToWei_eq (e : BigFloat) :
    EtherToWei e = some (
      if e.neg = true then e.truncInt * 1000000000000000000
      else if roundHalfEven (e.absNum * 10 ^ 18) e.absDen < 10 ^ 18 then
        e.truncInt * 1000000000000000000 + (roundHalfEven (e.absNum * 10 ^ 18) e.absDen : Nat)
      else e.truncInt * 1000000000000000000) := by
  cases hneg : e.neg with
  | true => simp [EtherToWei, BigFloat.Text_f, hneg]
  | false =>
    have htext : e.Text_f 18 = natDigits (roundHalfEven (e.absNum * 10 ^ 18) e.absDen / 10 ^ 18)
        ++ '.' :: fixedDigits 18 (roundHalfEven (e.absNum * 10 ^ 18) e.absDen) := by
      simp [BigFloat.Text_f, hneg]
    generalize hr : roundHalfEven (e.absNum * 10 ^ 18) e.absDen = r at htext ⊢
    by_cases hlt : r < 10 ^ 18
    · have hq : r / 10 ^ 18 = 0 := Nat.div_eq_of_lt hlt
      have hz : natDigits 0 = ['0'] := by decide
      rw [hq, hz] at htext
      have hlt2 : r < 1000000000000000000 := by norm_num at hlt; exact hlt
      simp only [EtherToWei, htext, List.singleton_append, List.length_cons, fixedDigits_length,
        List.take_succ_cons, List.take_zero, List.drop_succ_cons, List.drop_zero]
      simp [fixedDigits_length, SetString10_fixedDigits, hlt2]
      exact_mod_cast Nat.mod_eq_of_lt hlt2
    · have hq : 1 ≤ r / 10 ^ 18 := by
        rw [Nat.one_le_div_iff (by positivity)]
        omega
      obtain ⟨c, rest, hc, hne⟩ := natDigits_head _ hq
      rw [hc] at htext
      have hcond : ¬ ((e.Text_f 18).length > 2 ∧ (e.Text_f 18).take 2 = ['0', '.']) := by
        rintro ⟨-, h2⟩
        rw [htext] at h2
        simp only [List.cons_append, List.take_succ_cons, List.cons.injEq] at h2
        exact hne h2.1
      have hlt2 : ¬ r < 1000000000000000000 := by norm_num at hlt ⊢; exact hlt
      simp only [EtherToWei, if_neg hcond]
      simp [hlt2]


/-- The rounded quotient is within half a unit of the fraction. -/
theorem roundHalfEven_spec (n d : Nat) (hd : 0 < d) :
    2 * (roundHalfEven n d * d) ≤ 2 * n + d ∧ 2 * n ≤ 2 * (roundHalfEven n d * d) + d := by
  have h := Nat.div_add_mod n d
  have hr := Nat.mod_lt n hd
  generalize hq : n / d = q at h
  generalize hm : n % d = r at h hr
  have e1 : roundHalfEven n d = if 2 * r < d then q else if d < 2 * r then q + 1
      else if q % 2 = 0 then q else q + 1 := by
    simp only [roundHalfEven, hq, hm]
  rw [e1]
  have hmul : d * q = q * d := Nat.mul_comm _ _
  split_ifs <;> constructor <;> nlinarith

/-- A number within less than half a unit of the fraction is the rounded
quotient. -/
theorem roundHalfEven_unique (n d x : Nat) (h1 : 2 * n < 2 * (x * d) + d)
    (h2 : 2 * (x * d) < 2 * n + d) : roundHalfEven n d = x := by
  have hd : 0 < d := by
    rcases Nat.eq_zero_or_pos d with h | h
    · subst h; simp at h1 h2
    · exact h
  obtain ⟨s1, s2⟩ := roundHalfEven_spec n d hd
  generalize roundHalfEven n d = y at s1 s2
  have a1 : y * d < x * d + d := by omega
  have a2 : x * d < y * d + d := by omega
  have b1 : y < x + 1 := by
    have : y * d < (x + 1) * d := by rw [Nat.add_mul, Nat.one_mul]; exact a1
    exact Nat.lt_of_mul_lt_mul_right this
  have b2 : x < y + 1 := by
    have : x * d < (y + 1) * d := by rw [Nat.add_mul, Nat.one_mul]; exact a2
    exact Nat.lt_of_mul_lt_mul_right this
  omega

/-- A number below `2^k` has at most `k` binary digits. -/
theorem bitLenAux_le (fuel : Nat) : ∀ n k, n < 2 ^ k → bitLenAux fuel n ≤ k := by
  induction fuel with
  | zero => intro n k _; simp [bitLenAux]
  | succ f ih =>
    intro n k hn
    unfold bitLenAux
    by_cases h0 : n = 0
    · simp [h0]
    · rw [if_neg h0]
      cases k with
      | zero => simp at hn; omega
      | succ j =>
        have : n / 2 < 2 ^ j := by
          rw [pow_succ] at hn
          omega
        have := ih (n / 2) j this
        omega

/-- The round trip below one ether: for every wei amount `x < 10^18`,
`EtherToWei (WeiToEther x)` is `x`.  The quotient carries 64 bits, its error is
below `2^-64`, and rounding it at the 18th decimal digit recovers `x`. -/
theorem roundTrip_below_one_ether (x : Nat) (hx : x < 10 ^ 18) :
    (WeiToEther (x : Int)).bind EtherToWei = some (x : Int) := by
  have hD : BitLen (10 ^ 18) = 60 := by decide
  have hB : BitLen x ≤ 60 := bitLenAux_le x x 60 (lt_trans hx (by norm_num))
  by_cases h0 : x = 0
  · subst h0; decide
  · -- the exponent of the quotient is at most -63
    obtain ⟨a, ha, hfloat⟩ : ∃ a : Nat, 60 ≤ a ∧
        WeiToEther (x : Int) = some (BigFloat.mk false
          (roundHalfEven (x * 2 ^ a) (10 ^ 18)) (-(a : Int))
          (max (max (BitLen x) 64) 53)) := by
      have hp : max (max (BitLen x) 64) 53 = 64 := by omega
      simp only [WeiToEther, BigFloat.Quo, BigFloat.SetInt, NewFloat_1e18, Int.natAbs_ofNat, hp]
      rw [if_neg (by norm_num), if_neg h0]
      simp only [roundToPrec, if_neg h0, hD]
      split_ifs with hc
      · refine ⟨(60 + 64 - BitLen x) - 1, by omega, ?_⟩
        have e1 : ((BitLen x : Int) - ((60 : Nat) : Int) - ((64 : Nat) : Int) + 1)
            = -(((60 + 64 - BitLen x) - 1 : Nat) : Int) := by omega
        simp only [e1, Int.toNat_neg_nat, neg_neg, Int.toNat_ofNat, pow_zero, mul_one]
        simp
      · refine ⟨60 + 64 - BitLen x, by omega, ?_⟩
        have e1 : ((BitLen x : Int) - ((60 : Nat) : Int) - ((64 : Nat) : Int))
            = -((60 + 64 - BitLen x : Nat) : Int) := by omega
        simp only [e1, Int.toNat_neg_nat, neg_neg, Int.toNat_ofNat, pow_zero, mul_one]
        simp
    rw [hfloat, Option.some_bind, EtherToWei_eq]
    have hpow : (10 : Nat) ^ 18 < 2 ^ a :=
      lt_of_lt_of_le (by norm_num) (Nat.pow_le_pow_right (by decide) ha)
    obtain ⟨s1, s2⟩ := roundHalfEven_spec (x * 2 ^ a) (10 ^ 18) (by positivity)
    generalize roundHalfEven (x * 2 ^ a) (10 ^ 18) = m at s1 s2
    generalize max (max (BitLen x) 64) 53 = p
    have habs : (BigFloat.mk false m (-(a : Int)) p).absNum = m := by
      simp [BigFloat.absNum]
    have hden : (BigFloat.mk false m (-(a : Int)) p).absDen = 2 ^ a := by
      simp [BigFloat.absDen]
    have hr : roundHalfEven (m * 10 ^ 18) (2 ^ a) = x :=
      roundHalfEven_unique _ _ _ (by omega) (by omega)
    have hm : m < 2 ^ a := by
      have : m * 10 ^ 18 < 2 ^ a * 10 ^ 18 := by nlinarith
      exact Nat.lt_of_mul_lt_mul_right this
    have ht : (BigFloat.mk false m (-(a : Int)) p).truncInt = 0 := by
      simp only [BigFloat.truncInt, habs, hden, Nat.div_eq_of_lt hm]
      simp
    simp only [habs, hden, hr, ht, hx, if_true]
    simp

/-- C1, at the failing input: the wei amount `1500000000000000000` (1.5 ether)
comes back from `EtherToWei (WeiToEther x)` as `1000000000000000000`. -/
theorem roundTrip_one_and_a_half :
    WeiToEther 1500000000000000000
        = some { neg := false, mant := 13835058055282163712, exp := -63, prec := 64 } ∧
    EtherToWei { neg := false, mant := 13835058055282163712, exp := -63, prec := 64 }
        = some 1000000000000000000 := by
  decide

/-- C2, at the failing input: `EtherToWei` of the ether value 1.5, as
`big.NewFloat(1.5)`, is `10^18` and not `1.5 * 10^18`; its printed text is
`1.500000000000000000`, which does not start with `0.`. -/
theorem EtherToWei_one_and_a_half :
    EtherToWei { neg := false, mant := 3, exp := -1, prec := 53 } = some 1000000000000000000 ∧
    BigFloat.Text_f { neg := false, mant := 3, exp := -1, prec := 53 } 18
        = "1.500000000000000000".toList := by
  decide

/-- C3, at the failing input: the ether value `2^-60`, about `8.67e-19`, has
`floor (e * 10^18) = 0`, and `EtherToWei` returns 1. -/
theorem EtherToWei_rounds_up :
    EtherToWei { neg := false, mant := 1, exp := -60, prec := 53 } = some 1 ∧
    (1 * 10 ^ 18) / 2 ^ 60 = 0 := by
  decide

/-- C4, at the failing input: for `wei = 16000000000000000001` the result of
`WeiToEther` printed with 18 fraction digits reads `16.000000000000000002`,
while `wei / 10^18` is `16.000000000000000001`. -/
theorem WeiToEther_last_digit :
    (WeiToEther 16000000000000000001).map (fun f => f.Text_f 18)
        = some "16.000000000000000002".toList ∧
    natDigits (16000000000000000001 / 10 ^ 18) ++ '.' :: fixedDigits 18 16000000000000000001
        = "16.000000000000000001".toList := by
  decide

/-- C5, counterexample: for the negative ether value `-1` the function
`EtherToWei` returns the wei amount `-10^18`. -/
theorem EtherToWei_minus_one :
    EtherToWei { neg := true, mant := 1, exp := 0, prec := 53 }
      = some (-1000000000000000000) := by
  decide

/-- C5, amended: `EtherToWei` has no error result; for every ether value with
the sign bit set it returns the integer part, truncated towards zero, times
`10^18`, which is never positive. -/
theorem EtherToWei_negative (e : BigFloat) (hneg : e.neg = true) :
    EtherToWei e = some (e.truncInt * 1000000000000000000) ∧
    e.truncInt * 1000000000000000000 ≤ 0 := by
  constructor
  · simp [EtherToWei, BigFloat.Text_f, hneg]
  · have : e.truncInt ≤ 0 := by
      simp only [BigFloat.truncInt, hneg, if_true]
      exact Int.neg_nonpos_of_nonneg (Int.natCast_nonneg _)
    exact Int.mul_nonpos_of_nonpos_of_nonneg this (by decide)

/-- C5, witness: the amended statement at the ether value `-1.5`. -/
theorem EtherToWei_negative_witness :
    (BigFloat.mk true 3 (-1) 53).neg = true ∧
    (EtherToWei (BigFloat.mk true 3 (-1) 53)
        = some ((BigFloat.mk true 3 (-1) 53).truncInt * 1000000000000000000) ∧
      (BigFloat.mk true 3 (-1) 53).truncInt * 1000000000000000000 ≤ 0) :=
  ⟨rfl, EtherToWei_negative (BigFloat.mk true 3 (-1) 53) rfl⟩

/-! ## Theorems: validation in `SendTransaction` -/

set_option maxRecDepth 4000 in
/-- C6, at the failing input: an initialised wallet, the well-formed recipient
of the tests and the amount `-0.001` (as `big.NewFloat(-0.001)`).
`SendTransaction` asks the node for nonce, gas price, gas estimate and network
id, submits a transfer of 0 wei and returns its hash with a nil error. -/
theorem SendTransaction_negative_amount :
    toyWallet.SendTransaction toyLib testRecipient
        { neg := true, mant := 4611686018427388, exp := -62, prec := 53 } []
      = some ((toyLib.TxHashHex toySignedTx, none),
          [Event.PendingNonceAt toyKeyPair.Address, Event.SuggestGasPrice,
           Event.EstimateGas { From := toyKeyPair.Address,
                               To := common_HexToAddress testRecipient, Value := 0, Data := [] },
           Event.NetworkID, Event.SendTransaction toySignedTx]) := by
  decide

/-- C7: when the wallet holds no key pair, or the recipient is not a
well-formed address, `SendTransaction` returns the empty hash with an error
and the list of events is the one it started from: no request reaches the
node. -/
theorem SendTransaction_invalid_input (lib : Lib) (w : Wallet) (toAddress : List Char)
    (amount : BigFloat) (h : List Event)
    (hbad : w.KeyPair = none ∨ IsValidAddress toAddress = false) :
    ∃ err, w.SendTransaction lib toAddress amount h = some (([], some err), h) := by
  unfold Wallet.SendTransaction
  cases hkp : w.KeyPair with
  | none => exact ⟨_, rfl⟩
  | some kp =>
    rcases hbad with hnone | hinv
    · rw [hkp] at hnone; cases hnone
    · simp only [hinv, Bool.not_false, if_true]
      exact ⟨_, rfl⟩

/-- C7, witness: a wallet without key pair, and an initialised wallet with the
recipient `invalid-address` of the tests. -/
theorem SendTransaction_invalid_input_witness :
    (({ toyWallet with KeyPair := none } : Wallet).KeyPair = none ∨
        IsValidAddress testRecipient = false) ∧
    (∃ err, ({ toyWallet with KeyPair := none } : Wallet).SendTransaction toyLib testRecipient
        { neg := false, mant := 1, exp := 0, prec := 53 } [] = some (([], some err), [])) ∧
    (toyWallet.KeyPair = none ∨ IsValidAddress "invalid-address".toList = false) ∧
    (∃ err, toyWallet.SendTransaction toyLib "invalid-address".toList
        { neg := false, mant := 1, exp := 0, prec := 53 } [] = some (([], some err), [])) :=
  ⟨Or.inl rfl,
   SendTransaction_invalid_input toyLib _ testRecipient _ [] (Or.inl rfl),
   Or.inr (by decide),
   SendTransaction_invalid_input toyLib toyWallet _ _ [] (Or.inr (by decide))⟩

/-! ## Theorems: signatures -/

/-- A slice expression `s[i:]` with `i` within the length does not panic. -/
theorem sliceFrom_of_le {α : Type} (s : List α) (i : Nat) (hi : i ≤ s.length) :
    sliceFrom s i = some (s.drop i) := by
  simp [sliceFrom, hi]

/-- Copying exactly 20 bytes into a 20-byte array gives those bytes. -/
theorem copyInto_of_length (b : Bytes) (hb : b.length = 20) : copyInto 20 b = b := by
  simp [copyInto, hb, List.take_of_length_le]

/-- `BytesToAddress` of exactly 20 bytes gives those bytes. -/
theorem BytesToAddress_of_length (b : Bytes) (hb : b.length = 20) : BytesToAddress b = b := by
  simp [BytesToAddress, hb]

/-- When the hash has 32 bytes and recovery returns 65 bytes, `VerifySignature`
compares the claimed address with the address of the recovered key. -/
theorem VerifySignature_of_recover (lib : Lib) (hk : ∀ x, (lib.Keccak256 x).length = 32)
    (message signature pub : Bytes) (address : Address) (hpub : pub.length = 65)
    (hrec : lib.Ecrecover (lib.Keccak256 message) signature = .ok pub) :
    VerifySignature lib message signature address
      = some (decide ((lib.Keccak256 (pub.drop 1)).drop 12 = address)) := by
  have h1 : sliceFrom pub 1 = some (pub.drop 1) := sliceFrom_of_le _ _ (by omega)
  have h2 : sliceFrom (lib.Keccak256 (pub.drop 1)) 12 = some ((lib.Keccak256 (pub.drop 1)).drop 12) :=
    sliceFrom_of_le _ _ (by rw [hk]; omega)
  have h3 : copyInto 20 ((lib.Keccak256 (pub.drop 1)).drop 12)
      = (lib.Keccak256 (pub.drop 1)).drop 12 :=
    copyInto_of_length _ (by rw [List.length_drop, hk])
  simp only [VerifySignature, hrec, h1, h2, h3]

/-- C8: let the hash return 32 bytes, the encoding of a public key have 65
bytes, and recovery invert signing: for a private key whose public key is the
point of its scalar, the key recovered from a signature over a hash is that
public key.  Let `kp` be a key pair produced by `GenerateKeyPair` from a
generated key of that kind, `m` a message and `sig` the signature that
`kp.SignMessage m` returns.  Then `VerifySignature m sig a` returns a boolean
that is true exactly when `a` is `kp.Address`. -/
theorem VerifySignature_SignMessage (lib : Lib)
    (hk : ∀ x, (lib.Keccak256 x).length = 32)
    (hpub : ∀ p, (lib.FromECDSAPub p).length = 65)
    (hrec : ∀ hash key sig, key.PublicKey = lib.ScalarBaseMult key.D →
      lib.Sign hash key = .ok sig →
      lib.Ecrecover hash sig = .ok (lib.FromECDSAPub (lib.ScalarBaseMult key.D)))
    (gen : Except GoError PrivateKey) (kp : KeyPair)
    (hgen : GenerateKeyPair lib gen = (some kp, none))
    (hpoint : kp.PrivateKey.PublicKey = lib.ScalarBaseMult kp.PrivateKey.D)
    (m sig : Bytes) (hsig : kp.SignMessage lib m = (sig, none)) (a : Address) :
    ∃ b, VerifySignature lib m sig a = some b ∧ (b = true ↔ a = kp.Address) := by
  -- the key pair is built from the generated private key
  obtain ⟨key, hkp⟩ : ∃ key : PrivateKey,
      kp = KeyPair.mk key key.PublicKey (PubkeyToAddress lib key.PublicKey) := by
    cases gen with
    | error e => simp [GenerateKeyPair] at hgen
    | ok key =>
      refine ⟨key, ?_⟩
      simp only [GenerateKeyPair, Prod.mk.injEq, Option.some.injEq, and_true] at hgen
      exact hgen.symm
  -- signing succeeded, so recovery returns the public point of the scalar
  have hsign : lib.Sign (lib.Keccak256 m) kp.PrivateKey = .ok sig := by
    simp only [KeyPair.SignMessage] at hsig
    cases hs : lib.Sign (lib.Keccak256 m) kp.PrivateKey with
    | error e => rw [hs] at hsig; simp at hsig
    | ok s => rw [hs] at hsig; simp at hsig; rw [hsig]
  have hr := hrec _ _ _ hpoint hsign
  rw [← hpoint] at hr
  have hv := VerifySignature_of_recover lib hk m sig _ a (hpub _) hr
  have haddr : kp.Address
      = (lib.Keccak256 ((lib.FromECDSAPub kp.PrivateKey.PublicKey).drop 1)).drop 12 := by
    rw [hkp]
    exact BytesToAddress_of_length _ (by rw [List.length_drop, hk])
  refine ⟨_, hv, ?_⟩
  rw [decide_eq_true_iff, haddr]
  exact eq_comm

/-- The hash of `toyLib` returns 32 bytes. -/
theorem toyLib_Keccak256_length (x : Bytes) : (toyLib.Keccak256 x).length = 32 := by
  simp [toyLib]

/-- `paddedBytes n v` has `n` bytes. -/
theorem paddedBytes_length (n v : Nat) : (paddedBytes n v).length = n := by
  induction n with
  | zero => rfl
  | succ k ih => simp [paddedBytes, ih]

/-- The encoding of a public key by `toyLib` has 65 bytes. -/
theorem toyLib_FromECDSAPub_length (p : PublicKey) : (toyLib.FromECDSAPub p).length = 65 := by
  simp [toyLib, paddedBytes_length]

/-- Recovery inverts signing in `toyLib`. -/
theorem toyLib_recover (hash : Bytes) (key : PrivateKey) (sig : Bytes)
    (_hkey : key.PublicKey = toyLib.ScalarBaseMult key.D)
    (hs : toyLib.Sign hash key = .ok sig) :
    toyLib.Ecrecover hash sig = .ok (toyLib.FromECDSAPub (toyLib.ScalarBaseMult key.D)) := by
  simp only [toyLib, Except.ok.injEq] at hs
  subst hs
  simp [toyLib, paddedBytes_length]

/-- C8, witness: `toyLib`, the key pair `toyKeyPair`, the message `[1, 2, 3]`
and the address of the key pair. -/
theorem VerifySignature_SignMessage_witness :
    ∃ b, VerifySignature toyLib [1, 2, 3] (toyKeyPair.SignMessage toyLib [1, 2, 3]).1
        toyKeyPair.Address = some b ∧ (b = true ↔ toyKeyPair.Address = toyKeyPair.Address) :=
  VerifySignature_SignMessage toyLib toyLib_Keccak256_length toyLib_FromECDSAPub_length
    toyLib_recover (.ok toyKey) toyKeyPair rfl rfl [1, 2, 3] _ rfl toyKeyPair.Address

/-- C9: let the hash return 32 bytes and a successful recovery return 65
bytes.  Then `VerifySignature` returns a boolean for every message, every
byte string given as signature and every address; it returns false when
recovery fails; and when recovery succeeds both slice expressions are within
bounds. -/
theorem VerifySignature_total (lib : Lib)
    (hk : ∀ x, (lib.Keccak256 x).length = 32)
    (hlen : ∀ hash sig pub, lib.Ecrecover hash sig = .ok pub → pub.length = 65)
    (message signature : Bytes) (address : Address) :
    (∃ b, VerifySignature lib message signature address = some b) ∧
    (∀ err, lib.Ecrecover (lib.Keccak256 message) signature = .error err →
      VerifySignature lib message signature address = some false) ∧
    (∀ pub, lib.Ecrecover (lib.Keccak256 message) signature = .ok pub →
      sliceFrom pub 1 = some (pub.drop 1) ∧
      sliceFrom (lib.Keccak256 (pub.drop 1)) 12
        = some ((lib.Keccak256 (pub.drop 1)).drop 12)) := by
  refine ⟨?_, ?_, ?_⟩
  · cases hr : lib.Ecrecover (lib.Keccak256 message) signature with
    | error e => exact ⟨false, by simp [VerifySignature, hr]⟩
    | ok pub => exact ⟨_, VerifySignature_of_recover lib hk _ _ pub _ (hlen _ _ _ hr) hr⟩
  · intro err hr
    simp [VerifySignature, hr]
  · intro pub hr
    have hp := hlen _ _ _ hr
    exact ⟨sliceFrom_of_le _ _ (by omega), sliceFrom_of_le _ _ (by rw [hk]; omega)⟩

/-- A successful recovery in `toyLib` returns 65 bytes. -/
theorem toyLib_Ecrecover_length (hash sig pub : Bytes)
    (hr : toyLib.Ecrecover hash sig = .ok pub) : pub.length = 65 := by
  simp only [toyLib] at hr
  split at hr
  · cases hr; assumption
  · cases hr

/-- C9, witness: `toyLib` with the message `[1, 2, 3]` and the empty signature,
for which recovery fails. -/
theorem VerifySignature_total_witness :
    (∃ b, VerifySignature toyLib [1, 2, 3] [] toyKeyPair.Address = some b) ∧
    (∀ err, toyLib.Ecrecover (toyLib.Keccak256 [1, 2, 3]) [] = .error err →
      VerifySignature toyLib [1, 2, 3] [] toyKeyPair.Address = some false) ∧
    (∀ pub, toyLib.Ecrecover (toyLib.Keccak256 [1, 2, 3]) [] = .ok pub →
      sliceFrom pub 1 = some (pub.drop 1) ∧
      sliceFrom (toyLib.Keccak256 (pub.drop 1)) 12
        = some ((toyLib.Keccak256 (pub.drop 1)).drop 12)) :=
  VerifySignature_total toyLib toyLib_Keccak256_length toyLib_Ecrecover_length
    [1, 2, 3] [] toyKeyPair.Address

/-! ## Theorems: restoring a key pair -/

/-- `ToECDSA` succeeds exactly on 32 bytes whose value lies strictly between 0
and the group order; the key is that value with its public point. -/
theorem ToECDSA_eq_ok_iff (lib : Lib) (d : Bytes) (key : PrivateKey) :
    ToECDSA lib d = .ok key ↔
      d.length = 32 ∧ 0 < bytesToNat d ∧ bytesToNat d < secp256k1N ∧
      key = { D := bytesToNat d, PublicKey := lib.ScalarBaseMult (bytesToNat d) } := by
  unfold ToECDSA
  by_cases h1 : 8 * d.length ≠ 256
  · rw [if_pos h1]
    constructor
    · intro h; cases h
    · rintro ⟨hl, -⟩; omega
  · have hl : d.length = 32 := by omega
    rw [if_neg h1]
    by_cases h2 : secp256k1N ≤ bytesToNat d
    · rw [if_pos h2]
      constructor
      · intro h; cases h
      · rintro ⟨-, -, hlt, -⟩; omega
    · rw [if_neg h2]
      by_cases h3 : bytesToNat d = 0
      · rw [if_pos h3]
        constructor
        · intro h; cases h
        · rintro ⟨-, hpos, -⟩; omega
      · rw [if_neg h3]
        constructor
        · intro h
          cases h
          exact ⟨hl, by omega, by omega, rfl⟩
        · rintro ⟨-, -, -, h⟩; rw [h]

/-- The result of `restoreKeyPair` in terms of its three checks. -/
theorem restoreKeyPair_cases (lib : Lib) (w : Wallet) (wd : WalletData) :
    (∃ err, (hexDecode wd.PrivateKey).2 = some err ∧
      w.restoreKeyPair lib wd = (none, some (.wrap "error decoding private key" err))) ∨
    ((hexDecode wd.PrivateKey).2 = none ∧
      ∃ err, ToECDSA lib (hexDecode wd.PrivateKey).1 = .error err ∧
        w.restoreKeyPair lib wd = (none, some (.wrap "error restoring private key" err))) ∨
    ((hexDecode wd.PrivateKey).2 = none ∧
      ∃ key, ToECDSA lib (hexDecode wd.PrivateKey).1 = .ok key ∧
        lib.ToLower (Address.Hex lib (PubkeyToAddress lib key.PublicKey))
          ≠ lib.ToLower wd.Address ∧
        ∃ err, w.restoreKeyPair lib wd = (none, some err)) ∨
    ((hexDecode wd.PrivateKey).2 = none ∧
      ∃ key, ToECDSA lib (hexDecode wd.PrivateKey).1 = .ok key ∧
        lib.ToLower (Address.Hex lib (PubkeyToAddress lib key.PublicKey))
          = lib.ToLower wd.Address ∧
        w.restoreKeyPair lib wd
          = (some (KeyPair.mk key key.PublicKey (PubkeyToAddress lib key.PublicKey)), none)) := by
  rcases hd : hexDecode wd.PrivateKey with ⟨bytes, _ | err⟩
  · right
    cases hk : ToECDSA lib bytes with
    | error e =>
      refine Or.inl ⟨rfl, e, rfl, ?_⟩
      simp only [Wallet.restoreKeyPair, hd, hk]
    | ok key =>
      right
      by_cases hm : lib.ToLower (Address.Hex lib (PubkeyToAddress lib key.PublicKey))
          = lib.ToLower wd.Address
      · refine Or.inr ⟨rfl, key, rfl, hm, ?_⟩
        simp only [Wallet.restoreKeyPair, hd, hk, hm, ne_eq, not_true_eq_false, if_false]
      · refine Or.inl ⟨rfl, key, rfl, hm, ?_⟩
        simp only [Wallet.restoreKeyPair, hd, hk, hm, ne_eq, not_false_eq_true, if_true]
        exact ⟨_, rfl⟩
  · refine Or.inl ⟨err, rfl, ?_⟩
    simp only [Wallet.restoreKeyPair, hd]

/-- C10: `restoreKeyPair` returns a key pair exactly when the `private_key`
field is hexadecimal text that decodes to 32 bytes whose value `d` lies
strictly between 0 and the group order, and the lower-cased stored address
equals the lower-cased `Hex()` text of the address derived from `d`.  In every
other case it returns no key pair and an error.  A returned key pair comes
with a nil error, holds the scalar `d` and carries the re-derived address. -/
theorem restoreKeyPair_spec (lib : Lib) (w : Wallet) (wd : WalletData) :
    ((∃ kp, w.restoreKeyPair lib wd = (some kp, none)) ↔
      ∃ bytes, hexDecode wd.PrivateKey = (bytes, none) ∧ bytes.length = 32 ∧
        0 < bytesToNat bytes ∧ bytesToNat bytes < secp256k1N ∧
        lib.ToLower (Address.Hex lib (PubkeyToAddress lib (lib.ScalarBaseMult (bytesToNat bytes))))
          = lib.ToLower wd.Address) ∧
    ((¬ ∃ kp, w.restoreKeyPair lib wd = (some kp, none)) →
      ∃ err, w.restoreKeyPair lib wd = (none, some err)) ∧
    (∀ kp e, w.restoreKeyPair lib wd = (some kp, e) →
      e = none ∧
      kp.PrivateKey.D = bytesToNat (hexDecode wd.PrivateKey).1 ∧
      kp.PublicKey = lib.ScalarBaseMult kp.PrivateKey.D ∧
      kp.Address = PubkeyToAddress lib (lib.ScalarBaseMult kp.PrivateKey.D)) := by
  rcases restoreKeyPair_cases lib w wd with
    ⟨err, hd, hr⟩ | ⟨hd, err, hk, hr⟩ | ⟨hd, key, hk, hm, err, hr⟩ | ⟨hd, key, hk, hm, hr⟩
  · -- malformed hexadecimal text
    refine ⟨⟨?_, ?_⟩, fun _ => ⟨_, hr⟩, ?_⟩
    · rintro ⟨kp, h⟩; rw [hr] at h; cases h
    · rintro ⟨bytes, hb, -⟩; rw [hb] at hd; cases hd
    · intro kp e h; rw [hr] at h; cases h
  · -- not a valid private key
    refine ⟨⟨?_, ?_⟩, fun _ => ⟨_, hr⟩, ?_⟩
    · rintro ⟨kp, h⟩; rw [hr] at h; cases h
    · rintro ⟨bytes, hb, h32, hpos, hlt, -⟩
      have hok := (ToECDSA_eq_ok_iff lib bytes _).2 ⟨h32, hpos, hlt, rfl⟩
      rw [hb] at hk; rw [hok] at hk; cases hk
    · intro kp e h; rw [hr] at h; cases h
  · -- address mismatch
    obtain ⟨h32, hpos, hlt, hkey⟩ := (ToECDSA_eq_ok_iff lib _ key).1 hk
    refine ⟨⟨?_, ?_⟩, fun _ => ⟨_, hr⟩, ?_⟩
    · rintro ⟨kp, h⟩; rw [hr] at h; cases h
    · rintro ⟨bytes, hb, -, -, -, hlow⟩
      subst hkey
      rw [hb] at hm
      exact absurd hlow hm
    · intro kp e h; rw [hr] at h; cases h
  · -- all checks pass
    obtain ⟨h32, hpos, hlt, hkey⟩ := (ToECDSA_eq_ok_iff lib _ key).1 hk
    refine ⟨⟨fun _ => ?_, fun _ => ⟨_, hr⟩⟩, fun hno => absurd ⟨_, hr⟩ hno, ?_⟩
    · refine ⟨(hexDecode wd.PrivateKey).1, ?_, h32, hpos, hlt, ?_⟩
      · rw [← hd]
      · rw [hkey] at hm; exact hm
    · intro kp e h
      rw [hr] at h
      simp only [Prod.mk.injEq, Option.some.injEq] at h
      obtain ⟨hkp, he⟩ := h
      subst hkp
      subst hkey
      exact ⟨he.symm, rfl, rfl, rfl⟩

/-! ## Theorems: addresses as text -/

/-- `hexVal` is defined exactly on the hexadecimal digits. -/
theorem hexVal_isSome_iff (c : Char) : (hexVal c).isSome = true ↔ IsHexDigit c := by
  unfold hexVal IsHexDigit
  split_ifs with h1 h2 h3 <;> simp_all

/-- The helper `has0xPrefix` recognises the two prefixes `0x` and `0X`. -/
theorem has0xPrefix_iff (s : List Char) :
    has0xPrefix s = true ↔ ∃ rest, s = '0' :: 'x' :: rest ∨ s = '0' :: 'X' :: rest := by
  unfold has0xPrefix
  match s with
  | [] => simp
  | [c] => simp
  | c0 :: c1 :: rest =>
    simp only [Bool.and_eq_true, Bool.or_eq_true, beq_iff_eq, List.cons.injEq]
    constructor
    · rintro ⟨h0, h1 | h1⟩
      · exact ⟨rest, Or.inl ⟨h0, h1, rfl⟩⟩
      · exact ⟨rest, Or.inr ⟨h0, h1, rfl⟩⟩
    · rintro ⟨r, ⟨h0, h1, -⟩ | ⟨h0, h1, -⟩⟩
      · exact ⟨h0, Or.inl h1⟩
      · exact ⟨h0, Or.inr h1⟩

/-- `hexDecode` on `2 * n` hexadecimal digits: no error, `n` bytes, and byte
`i` is sixteen times the value of digit `2 * i` plus the value of digit
`2 * i + 1`. -/
theorem hexDecode_digits (n : Nat) : ∀ l : List Char, l.length = 2 * n →
    (∀ c ∈ l, (hexVal c).isSome = true) →
    (hexDecode l).2 = none ∧ (hexDecode l).1.length = n ∧
    ∀ i, i < n → (hexDecode l).1.getD i 0
      = 16 * (hexVal (l.getD (2 * i) '0')).getD 0 + (hexVal (l.getD (2 * i + 1) '0')).getD 0 := by
  induction n with
  | zero =>
    intro l hl _
    have : l = [] := List.length_eq_zero.mp (by omega)
    subst this
    simp [hexDecode]
  | succ k ih =>
    intro l hl hall
    match l, hl, hall with
    | [], hl, _ => simp at hl
    | [_], hl, _ => simp at hl; omega
    | p :: q :: rest, hl, hall =>
      have hp : (hexVal p).isSome = true := hall p (by simp)
      have hq : (hexVal q).isSome = true := hall q (by simp)
      obtain ⟨a, ha⟩ := Option.isSome_iff_exists.mp hp
      obtain ⟨b, hb⟩ := Option.isSome_iff_exists.mp hq
      have hrest : rest.length = 2 * k := by simp at hl; omega
      obtain ⟨e1, e2, e3⟩ := ih rest hrest (fun c hc => hall c (by simp [hc]))
      have hd : hexDecode (p :: q :: rest)
          = ((16 * a + b) :: (hexDecode rest).1, (hexDecode rest).2) := by
        simp [hexDecode, ha, hb]
      rw [hd]
      refine ⟨e1, by simp [e2], ?_⟩
      intro i hi
      cases i with
      | zero => simp [ha, hb]
      | succ j =>
        have := e3 j (by omega)
        simp only [List.getD_cons_succ, this]
        have h1 : 2 * (j + 1) = (2 * j) + 1 + 1 := by ring
        rw [h1]
        simp only [List.getD_cons_succ]

/-- `IsHexAddress` in terms of the digits that remain after the prefix. -/
theorem IsHexAddress_iff (s : List Char) :
    IsHexAddress s = true ↔
      ∃ digits, (s = digits ∨ s = '0' :: 'x' :: digits ∨ s = '0' :: 'X' :: digits) ∧
        digits.length = 40 ∧ ∀ c ∈ digits, IsHexDigit c := by
  have key : ∀ d : List Char, ((d.length == 2 * 20 && isHex d) = true) ↔
      (d.length = 40 ∧ ∀ c ∈ d, IsHexDigit c) := by
    intro d
    simp only [isHex, Bool.and_eq_true, beq_iff_eq]
    constructor
    · rintro ⟨hl, hh⟩
      have hl2 : d.length = 40 := by omega
      rw [if_neg (by omega)] at hh
      exact ⟨hl2, fun c hc => (hexVal_isSome_iff c).1 (List.all_eq_true.mp hh c hc)⟩
    · rintro ⟨hl, hh⟩
      refine ⟨by omega, ?_⟩
      rw [if_neg (by omega)]
      exact List.all_eq_true.mpr (fun c hc => (hexVal_isSome_iff c).2 (hh c hc))
  unfold IsHexAddress
  by_cases hp : has0xPrefix s = true
  · simp only [hp, if_true]
    rw [key]
    obtain ⟨rest, hr⟩ := (has0xPrefix_iff s).1 hp
    constructor
    · rintro ⟨hl, hh⟩
      refine ⟨s.drop 2, ?_, hl, hh⟩
      rcases hr with hr | hr <;> subst hr <;> simp
    · rintro ⟨digits, hs, hl, hh⟩
      rcases hs with hs | hs | hs
      · -- forty digits cannot start with the prefix
        subst hs
        rcases hr with hr | hr <;> subst hr
        · have := hh 'x' (by simp)
          exact absurd this (by unfold IsHexDigit; decide)
        · have := hh 'X' (by simp)
          exact absurd this (by unfold IsHexDigit; decide)
      · subst hs; exact ⟨by simpa using hl, by simpa using hh⟩
      · subst hs; exact ⟨by simpa using hl, by simpa using hh⟩
  · have hp2 : has0xPrefix s = false := by simpa using hp
    simp only [hp2, Bool.false_eq_true, if_false]
    rw [key]
    constructor
    · rintro ⟨hl, hh⟩
      exact ⟨s, Or.inl rfl, hl, hh⟩
    · rintro ⟨digits, hs, hl, hh⟩
      rcases hs with hs | hs | hs
      · subst hs; exact ⟨hl, hh⟩
      · exact absurd ((has0xPrefix_iff s).2 ⟨digits, Or.inl hs⟩) hp
      · exact absurd ((has0xPrefix_iff s).2 ⟨digits, Or.inr hs⟩) hp

/-- A hexadecimal digit takes one byte. -/
theorem utf8Size_hexDigit (c : Char) (h : IsHexDigit c) : utf8Size c = 1 := by
  have hlt : c.toNat < 128 := by
    have key : ∀ d : Char, c ≤ d → d.toNat < 128 → c.toNat < 128 := by
      intro d hcd hd
      have : c.toNat ≤ d.toNat := hcd
      omega
    rcases h with ⟨-, h⟩ | ⟨-, h⟩ | ⟨-, h⟩
    · exact key _ h (by decide)
    · exact key _ h (by decide)
    · exact key _ h (by decide)
  simp [utf8Size, hlt]

/-- A text of hexadecimal digits has as many bytes as characters. -/
theorem utf8Len_hexDigits (l : List Char) (h : ∀ c ∈ l, IsHexDigit c) :
    utf8Len l = l.length := by
  induction l with
  | nil => rfl
  | cons c cs ih =>
    have h1 := utf8Size_hexDigit c (h c (by simp))
    have h2 := ih (fun x hx => h x (by simp [hx]))
    simp only [utf8Len, List.map_cons, List.sum_cons, List.length_cons] at h2 ⊢
    omega

/-- The text that `IsHexAddress` and `FromHex` examine, when `s` is forty
hexadecimal digits with or without prefix: the digits. -/
theorem strip0x_digits (s digits : List Char)
    (hs : s = digits ∨ s = '0' :: 'x' :: digits ∨ s = '0' :: 'X' :: digits)
    (hh : ∀ c ∈ digits, IsHexDigit c) (hl : 2 ≤ digits.length) :
    (if has0xPrefix s = true then s.drop 2 else s) = digits := by
  rcases hs with hs | hs | hs
  · subst hs
    have hp : has0xPrefix s = false := by
      by_contra hc
      have hc2 : has0xPrefix s = true := by simpa using hc
      obtain ⟨rest, hr | hr⟩ := (has0xPrefix_iff s).1 hc2
      · subst hr
        exact absurd (hh 'x' (by simp)) (by decide)
      · subst hr
        exact absurd (hh 'X' (by simp)) (by decide)
    simp [hp]
  · subst hs; simp [has0xPrefix]
  · subst hs; simp [has0xPrefix]

/-- C18: `IsValidAddress s` is true exactly when `s` is forty hexadecimal
digits, possibly after a prefix `0x` or `0X`.  `HexToAddress` returns an error
exactly for the strings that `IsValidAddress` rejects; for the others it
returns, with a nil error, 20 bytes of which byte `i` is sixteen times the
value of digit `2 * i` plus the value of digit `2 * i + 1`. -/
theorem IsValidAddress_HexToAddress (s : List Char) :
    (IsValidAddress s = true ↔
      ∃ digits, (s = digits ∨ s = '0' :: 'x' :: digits ∨ s = '0' :: 'X' :: digits) ∧
        digits.length = 40 ∧ ∀ c ∈ digits, IsHexDigit c) ∧
    ((HexToAddress s).2 ≠ none ↔ IsValidAddress s = false) ∧
    (∀ digits, (s = digits ∨ s = '0' :: 'x' :: digits ∨ s = '0' :: 'X' :: digits) →
      digits.length = 40 → (∀ c ∈ digits, IsHexDigit c) →
      (HexToAddress s).2 = none ∧ (HexToAddress s).1.length = 20 ∧
      ∀ i, i < 20 → (HexToAddress s).1.getD i 0
        = 16 * (hexVal (digits.getD (2 * i) '0')).getD 0
          + (hexVal (digits.getD (2 * i + 1) '0')).getD 0) := by
  refine ⟨IsHexAddress_iff s, ?_, ?_⟩
  · unfold HexToAddress IsValidAddress
    cases h : IsHexAddress s <;> simp
  · intro digits hs hl hh
    have hvalid : IsHexAddress s = true := (IsHexAddress_iff s).2 ⟨digits, hs, hl, hh⟩
    have hstrip := strip0x_digits s digits hs hh (by omega)
    obtain ⟨d1, d2, d3⟩ := hexDecode_digits 20 digits (by omega)
      (fun c hc => (hexVal_isSome_iff c).2 (hh c hc))
    have hfrom : FromHex s = (hexDecode digits).1 := by
      unfold FromHex
      simp only [hstrip]
      rw [utf8Len_hexDigits digits hh, if_neg (by omega)]
    have haddr : HexToAddress s = ((hexDecode digits).1, none) := by
      unfold HexToAddress
      simp only [hvalid, Bool.not_true, Bool.false_eq_true, if_false, common_HexToAddress, hfrom,
        BytesToAddress_of_length _ d2]
    rw [haddr]
    exact ⟨rfl, d2, d3⟩

/-- C18, witness: the recipient of the tests, `0x` followed by forty digits. -/
theorem IsValidAddress_HexToAddress_witness :
    (HexToAddress testRecipient).2 = none ∧ (HexToAddress testRecipient).1.length = 20 ∧
      ∀ i, i < 20 → (HexToAddress testRecipient).1.getD i 0
        = 16 * (hexVal ((testRecipient.drop 2).getD (2 * i) '0')).getD 0
          + (hexVal ((testRecipient.drop 2).getD (2 * i + 1) '0')).getD 0 :=
  (IsValidAddress_HexToAddress testRecipient).2.2 (testRecipient.drop 2)
    (Or.inr (Or.inl (by decide))) (by decide) (by decide)

/-! ## Theorems: the key bytes handed to the signer -/

/-- Reading back a printed hexadecimal digit. -/
theorem hexVal_hexDigit (d : Nat) : hexVal (hexDigit d) = some (d % 16) := by
  have h : ∀ k, k < 16 → hexVal (if k < 10 then Char.ofNat (48 + k) else Char.ofNat (87 + k))
      = some k := by decide
  exact h (d % 16) (Nat.mod_lt _ (by decide))

/-- A printed hexadecimal digit is not a sign. -/
theorem hexDigit_ne_sign (d : Nat) : hexDigit d ≠ '-' ∧ hexDigit d ≠ '+' := by
  have h : ∀ k, k < 16 →
      (if k < 10 then Char.ofNat (48 + k) else Char.ofNat (87 + k)) ≠ '-' ∧
      (if k < 10 then Char.ofNat (48 + k) else Char.ofNat (87 + k)) ≠ '+' := by decide
  exact h (d % 16) (Nat.mod_lt _ (by decide))

/-- Parsing the hexadecimal text of bytes continues the accumulator in base
256. -/
theorem parseHexDigits_hexEncode (k : Bytes) : ∀ acc, (∀ b ∈ k, b < 256) →
    parseHexDigits (hexEncode k) acc = some (k.foldl (fun a x => 256 * a + x) acc) := by
  induction k with
  | nil => intro acc _; rfl
  | cons b bs ih =>
    intro acc hb
    have hb256 : b < 256 := hb b (by simp)
    simp only [hexEncode, parseHexDigits, hexVal_hexDigit, List.foldl_cons]
    rw [ih _ (fun x hx => hb x (by simp [hx]))]
    congr 2
    have h1 : b / 16 % 16 = b / 16 := Nat.mod_eq_of_lt (by omega)
    rw [h1]
    omega

/-- `SetString16` reads the hexadecimal text of bytes back as their big-endian
value. -/
theorem SetString16_hexEncode (k : Bytes) (hb : ∀ b ∈ k, b < 256) :
    SetString16 (hexEncode k) = ((bytesToNat k : Nat) : Int) := by
  have hp := parseHexDigits_hexEncode k 0 hb
  cases k with
  | nil => simp [hexEncode, SetString16, parseHexDigits, bytesToNat]
  | cons b bs =>
    have hs := hexDigit_ne_sign (b / 16)
    have he : hexEncode (b :: bs) = hexDigit (b / 16) :: hexDigit b :: hexEncode bs := rfl
    rw [he] at hp ⊢
    unfold SetString16
    split
    · rename_i cs heq; exact absurd (List.cons.inj heq).1 hs.1
    · rename_i cs heq; exact absurd (List.cons.inj heq).1 hs.2
    · rw [hp]; rfl

/-- The low byte of `paddedBytes` is the last one. -/
theorem paddedBytes_succ (n v : Nat) :
    paddedBytes (n + 1) v = paddedBytes n (v / 256) ++ [v % 256] := by
  induction n with
  | zero => simp [paddedBytes]
  | succ m ih =>
    have h1 : paddedBytes (m + 1 + 1) v = (v / 256 ^ (m + 1)) % 256 :: paddedBytes (m + 1) v := rfl
    have h2 : paddedBytes (m + 1) (v / 256)
        = (v / 256 / 256 ^ m) % 256 :: paddedBytes m (v / 256) := rfl
    rw [h1, ih, h2, Nat.div_div_eq_div_mul, pow_succ, Nat.mul_comm 256 (256 ^ m)]
    rfl

/-- The bytes of zero are zeros. -/
theorem paddedBytes_zero (n : Nat) : paddedBytes n 0 = List.replicate n 0 := by
  induction n with
  | zero => rfl
  | succ m ih => simp [paddedBytes, ih, List.replicate_succ]

/-- The accumulator of `natBytesAux` is a suffix of its result. -/
theorem natBytesAux_acc (fuel : Nat) : ∀ v acc,
    natBytesAux fuel v acc = natBytesAux fuel v [] ++ acc := by
  induction fuel with
  | zero => intro v acc; rfl
  | succ f ih =>
    intro v acc
    unfold natBytesAux
    by_cases hv : v = 0
    · simp [hv]
    · rw [if_neg hv, if_neg hv, ih (v / 256) (v % 256 :: acc), ih (v / 256) [v % 256]]
      simp

/-- The minimal bytes of a value below `256^n`, extended on the left with zeros
to `n` bytes, are its `n` padded bytes. -/
theorem natBytesAux_padded (fuel : Nat) : ∀ v n, v ≤ fuel → v < 256 ^ n →
    (natBytesAux fuel v []).length ≤ n ∧
    List.replicate (n - (natBytesAux fuel v []).length) 0 ++ natBytesAux fuel v []
      = paddedBytes n v := by
  induction fuel with
  | zero =>
    intro v n hv _
    have : v = 0 := by omega
    subst this
    simp [natBytesAux, paddedBytes_zero]
  | succ f ih =>
    intro v n hv hn
    unfold natBytesAux
    by_cases h0 : v = 0
    · subst h0
      simp [paddedBytes_zero]
    · rw [if_neg h0]
      cases n with
      | zero => simp at hn; omega
      | succ m =>
        have hdiv : v / 256 < 256 ^ m := by
          rw [pow_succ] at hn
          omega
        obtain ⟨i1, i2⟩ := ih (v / 256) m (by omega) hdiv
        rw [natBytesAux_acc f (v / 256) [v % 256], paddedBytes_succ, ← i2]
        constructor
        · simp; omega
        · simp only [List.length_append, List.length_singleton, List.append_assoc]
          congr 2
          omega

/-- The big-endian value of `n` bytes is below `256^n`. -/
theorem bytesToNat_lt (k : Bytes) (hb : ∀ b ∈ k, b < 256) : bytesToNat k < 256 ^ k.length := by
  induction k using List.reverseRecOn with
  | nil => simp [bytesToNat]
  | append_singleton bs b ih =>
    have hb1 : b < 256 := hb b (by simp)
    have ih2 := ih (fun x hx => hb x (by simp [hx]))
    simp only [bytesToNat, List.foldl_append, List.foldl_cons, List.foldl_nil,
      List.length_append, List.length_singleton, pow_succ] at ih2 ⊢
    omega

/-- The padded bytes of the big-endian value of bytes are those bytes. -/
theorem paddedBytes_bytesToNat (k : Bytes) (hb : ∀ b ∈ k, b < 256) :
    paddedBytes k.length (bytesToNat k) = k := by
  induction k using List.reverseRecOn with
  | nil => rfl
  | append_singleton bs b ih =>
    have hb1 : b < 256 := hb b (by simp)
    have ih2 := ih (fun x hx => hb x (by simp [hx]))
    have hv : bytesToNat (bs ++ [b]) = 256 * bytesToNat bs + b := by
      simp [bytesToNat, List.foldl_append]
    rw [List.length_append, List.length_singleton, paddedBytes_succ, hv]
    have h1 : (256 * bytesToNat bs + b) / 256 = bytesToNat bs := by omega
    have h2 : (256 * bytesToNat bs + b) % 256 = b := by omega
    rw [h1, h2, ih2]

/-- `Client.SignTransaction` passes `Client.keyBytes privateKey` to
`crypto.ToECDSA`. -/
theorem SignTransaction_keyBytes (lib : Lib) (c : Client) (tx : Transaction) (privateKey : Int)
    (h : List Event) :
    c.SignTransaction lib tx privateKey h =
      match c.GetNetworkID h with
      | ((_, some err), h1) =>
        ((none, some (.wrap "error getting network ID for signing" err)), h1)
      | ((networkID, none), h1) =>
        match ToECDSA lib (Client.keyBytes privateKey) with
        | .error err => ((none, some (.wrap "error converting private key" err)), h1)
        | .ok ecdsaPrivateKey =>
          match lib.SignTx tx networkID ecdsaPrivateKey with
          | .error err => ((none, some (.wrap "error signing transaction" err)), h1)
          | .ok signedTx => ((some signedTx, none), h1) := by
  rfl

/-- The padding in `Client.SignTransaction` undoes the parsing of the
hexadecimal text of 32 bytes. -/
theorem keyBytes_hexEncode (k : Bytes) (hlen : k.length = 32) (hb : ∀ b ∈ k, b < 256) :
    Client.keyBytes (SetString16 (hexEncode k)) = k := by
  have hlt := bytesToNat_lt k hb
  rw [hlen] at hlt
  obtain ⟨l1, l2⟩ := natBytesAux_padded (bytesToNat k) (bytesToNat k) 32 (le_refl _) hlt
  have hpad := paddedBytes_bytesToNat k hb
  rw [hlen] at hpad
  unfold Client.keyBytes
  rw [SetString16_hexEncode k hb]
  simp only [bigIntBytes, Int.natAbs_ofNat]
  by_cases hshort : (natBytesAux (bytesToNat k) (bytesToNat k) []).length < 32
  · rw [if_pos hshort, l2, hpad]
  · rw [if_neg hshort]
    have h32 : (natBytesAux (bytesToNat k) (bytesToNat k) []).length = 32 := by omega
    rw [h32] at l2
    simpa [hpad] using l2

/-- Every byte of `paddedBytes` is below 256. -/
theorem paddedBytes_lt (n v : Nat) : ∀ b ∈ paddedBytes n v, b < 256 := by
  induction n with
  | zero => intro b hb; simp [paddedBytes] at hb
  | succ m ih =>
    intro b hb
    simp only [paddedBytes, List.mem_cons] at hb
    rcases hb with hb | hb
    · rw [hb]; exact Nat.mod_lt _ (by decide)
    · exact ih b hb

/-- For every key pair, the bytes that `SendTransaction` makes
`Client.SignTransaction` hand to `crypto.ToECDSA` are `crypto.FromECDSA` of the
private key of the wallet. -/
theorem keyBytes_GetPrivateKeyHex (kp : KeyPair) :
    Client.keyBytes (SetString16 kp.GetPrivateKeyHex) = FromECDSA kp.PrivateKey :=
  keyBytes_hexEncode _ (paddedBytes_length 32 _) (paddedBytes_lt 32 _)

/-- C19: for every 32-byte key `k`, leading zero bytes included, the integer
that `SendTransaction` parses from the hexadecimal text of `k` is turned back
into exactly `k` by the padding in `Client.SignTransaction`, and
`SignTransaction` called with that integer hands `k` to `crypto.ToECDSA`. -/
theorem keyBytes_roundTrip (lib : Lib) (c : Client) (tx : Transaction) (h : List Event)
    (k : Bytes) (hlen : k.length = 32) (hb : ∀ b ∈ k, b < 256) :
    Client.keyBytes (SetString16 (hexEncode k)) = k ∧
    c.SignTransaction lib tx (SetString16 (hexEncode k)) h =
      match c.GetNetworkID h with
      | ((_, some err), h1) =>
        ((none, some (.wrap "error getting network ID for signing" err)), h1)
      | ((networkID, none), h1) =>
        match ToECDSA lib k with
        | .error err => ((none, some (.wrap "error converting private key" err)), h1)
        | .ok ecdsaPrivateKey =>
          match lib.SignTx tx networkID ecdsaPrivateKey with
          | .error err => ((none, some (.wrap "error signing transaction" err)), h1)
          | .ok signedTx => ((some signedTx, none), h1) := by
  refine ⟨keyBytes_hexEncode k hlen hb, ?_⟩
  rw [SignTransaction_keyBytes, keyBytes_hexEncode k hlen hb]

/-- C19, witness: the key bytes of `toyKey`, thirty-one zero bytes followed by
5, over `toyLib` and `okNode`. -/
theorem keyBytes_roundTrip_witness :
    Client.keyBytes (SetString16 (hexEncode (paddedBytes 32 5))) = paddedBytes 32 5 :=
  (keyBytes_roundTrip toyLib toyWallet.Blockchain toySignedTx.tx [] (paddedBytes 32 5)
    (by decide) (by decide)).1

/-! ## Theorems: polling for the receipt -/

/-- `GetTransactionReceipt` records one receipt query, whatever the answer. -/
theorem GetTransactionReceipt_events (c : Client) (txHash : Bytes) (h : List Event) :
    (c.GetTransactionReceipt txHash h).2 = h ++ [Event.TransactionReceipt txHash] := by
  unfold Client.GetTransactionReceipt
  split <;> rfl

/-- `GetTransactionReceipt` returns a receipt with a nil error exactly when
the node answers so. -/
theorem GetTransactionReceipt_present (c : Client) (txHash : Bytes) (h : List Event)
    (r : Receipt) (hr : c.client.TransactionReceipt h txHash = (some r, none)) :
    c.GetTransactionReceipt txHash h = ((some r, none), h ++ [Event.TransactionReceipt txHash]) := by
  unfold Client.GetTransactionReceipt
  rw [hr]

/-- When the answer of the node fails the test of the loop, one round of the
loop is a query, a pause, and the rest of the loop. -/
theorem waitLoop_step (c : Client) (txHash : Bytes) (n : Nat) (h : List Event)
    (hno : receiptPresent (c.client.TransactionReceipt h txHash) = false) :
    c.waitLoop txHash (n + 1) h
      = c.waitLoop txHash n (h ++ [Event.TransactionReceipt txHash, Event.Sleep 5]) := by
  have hev := GetTransactionReceipt_events c txHash h
  rcases hres : c.GetTransactionReceipt txHash h with ⟨⟨rc, er⟩, h1⟩
  rw [hres] at hev
  simp only at hev
  subst hev
  have hnot : ¬ (∃ r, rc = some r ∧ er = none) := by
    rintro ⟨r, h1, h2⟩
    subst h1; subst h2
    unfold Client.GetTransactionReceipt at hres
    rcases hans : c.client.TransactionReceipt h txHash with ⟨a1, a2⟩
    rw [hans] at hres hno
    cases a2 with
    | some e => simp at hres
    | none =>
      simp only [Prod.mk.injEq, and_true] at hres
      rw [hres] at hno
      simp [receiptPresent] at hno
  have e1 : c.waitLoop txHash (n + 1) h
      = (match c.GetTransactionReceipt txHash h with
        | ((some receipt, none), h1) => (some receipt, h1)
        | (_, h1) => c.waitLoop txHash n (h1 ++ [Event.Sleep 5])) := rfl
  rw [e1, hres]
  cases rc with
  | none => simp
  | some r =>
    cases er with
    | some e => simp
    | none => exact absurd ⟨r, rfl, rfl⟩ hnot

/-- A loop of `n` rounds in which no answer passes the test ends without a
receipt after `n` queries and `n` pauses. -/
theorem waitLoop_never (c : Client) (txHash : Bytes) (n : Nat) : ∀ h,
    (∀ j, j < n → receiptPresent (c.client.TransactionReceipt (h ++ pollEvents txHash j) txHash)
      = false) →
    c.waitLoop txHash n h = (none, h ++ pollEvents txHash n) := by
  induction n with
  | zero => intro h _; simp [Client.waitLoop, pollEvents]
  | succ m ih =>
    intro h hno
    have h0 := hno 0 (by omega)
    simp only [pollEvents, List.append_nil] at h0
    rw [waitLoop_step c txHash m h h0, ih]
    · simp [pollEvents]
    · intro j hj
      have := hno (j + 1) (by omega)
      simpa [pollEvents] using this

/-- A loop in which the answer after `m` unsuccessful rounds is a receipt
returns that receipt right after the query, provided `m` rounds are not all
it may make. -/
theorem waitLoop_first (c : Client) (txHash : Bytes) (r : Receipt) (m : Nat) : ∀ n h, m < n →
    (∀ j, j < m → receiptPresent (c.client.TransactionReceipt (h ++ pollEvents txHash j) txHash)
      = false) →
    c.client.TransactionReceipt (h ++ pollEvents txHash m) txHash = (some r, none) →
    c.waitLoop txHash n h
      = (some r, h ++ pollEvents txHash m ++ [Event.TransactionReceipt txHash]) := by
  induction m with
  | zero =>
    intro n h hn _ hat
    obtain ⟨n', rfl⟩ : ∃ n', n = n' + 1 := ⟨n - 1, by omega⟩
    simp only [pollEvents, List.append_nil] at hat ⊢
    have e1 : c.waitLoop txHash (n' + 1) h
        = (match c.GetTransactionReceipt txHash h with
          | ((some receipt, none), h1) => (some receipt, h1)
          | (_, h1) => c.waitLoop txHash n' (h1 ++ [Event.Sleep 5])) := rfl
    rw [e1, GetTransactionReceipt_present c txHash h r hat]
  | succ k ih =>
    intro n h hn hno hat
    obtain ⟨n', rfl⟩ : ∃ n', n = n' + 1 := ⟨n - 1, by omega⟩
    have h0 := hno 0 (by omega)
    simp only [pollEvents, List.append_nil] at h0
    rw [waitLoop_step c txHash n' h h0, ih n' _ (by omega)]
    · simp [pollEvents]
    · intro j hj
      have := hno (j + 1) (by omega)
      simpa [pollEvents] using this
    · simpa [pollEvents] using hat

/-- Among the events of `j` unsuccessful rounds there are `j` receipt queries
and `j` pauses. -/
theorem pollEvents_count (txHash : Bytes) (j : Nat) :
    ((pollEvents txHash j).filter Event.isReceiptQuery).length = j ∧
    ((pollEvents txHash j).filter Event.isSleep).length = j := by
  induction j with
  | zero => simp [pollEvents]
  | succ m ih =>
    simp [pollEvents, Event.isReceiptQuery, Event.isSleep, ih.1, ih.2]

/-- C14: for every `N ≥ 0` and a node none of whose answers during the run
is a receipt with a nil error, `Client.WaitForTransaction (hash, N)` returns a
nil receipt with the not-confirmed error, and the events it adds hold exactly
`N` receipt queries (each followed by a pause of 5 seconds). -/
theorem WaitForTransaction_never (c : Client) (txHash : Bytes) (N : Nat) (h : List Event)
    (hno : ∀ j, j < N →
      receiptPresent (c.client.TransactionReceipt (h ++ pollEvents txHash j) txHash) = false) :
    c.WaitForTransaction txHash (N : Int) h
      = ((none, some (.errorf ("transaction not confirmed after " ++ toString (N : Int)
            ++ " attempts"))), h ++ pollEvents txHash N) ∧
    ((pollEvents txHash N).filter Event.isReceiptQuery).length = N := by
  refine ⟨?_, (pollEvents_count txHash N).1⟩
  unfold Client.WaitForTransaction
  rw [Int.toNat_ofNat, waitLoop_never c txHash N h hno]

/-- C14, witness: three attempts against `noReceiptNode`. -/
theorem WaitForTransaction_never_witness :
    (Client.mk noReceiptNode []).WaitForTransaction [1] ((3 : Nat) : Int) []
      = ((none, some (.errorf ("transaction not confirmed after " ++ toString ((3 : Nat) : Int)
            ++ " attempts"))), [] ++ pollEvents [1] 3) ∧
    ((pollEvents [1] 3).filter Event.isReceiptQuery).length = 3 :=
  WaitForTransaction_never (Client.mk noReceiptNode []) [1] 3 [] (by decide)

/-- C15: when the `k`-th receipt query, `1 ≤ k ≤ N`, is the first whose answer
is a receipt with a nil error, `Client.WaitForTransaction (hash, N)` returns
that receipt with a nil error; the events it adds are `k - 1` rounds of query
and pause followed by the `k`-th query, that is `k` queries and `k - 1`
pauses, none after the receipt. -/
theorem WaitForTransaction_first (c : Client) (txHash : Bytes) (N k : Nat) (h : List Event)
    (r : Receipt) (hk : 1 ≤ k) (hkN : k ≤ N)
    (hno : ∀ j, j < k - 1 →
      receiptPresent (c.client.TransactionReceipt (h ++ pollEvents txHash j) txHash) = false)
    (hat : c.client.TransactionReceipt (h ++ pollEvents txHash (k - 1)) txHash = (some r, none)) :
    c.WaitForTransaction txHash (N : Int) h
      = ((some r, none),
          h ++ pollEvents txHash (k - 1) ++ [Event.TransactionReceipt txHash]) ∧
    ((pollEvents txHash (k - 1) ++ [Event.TransactionReceipt txHash]).filter
      Event.isReceiptQuery).length = k ∧
    ((pollEvents txHash (k - 1) ++ [Event.TransactionReceipt txHash]).filter
      Event.isSleep).length = k - 1 := by
  refine ⟨?_, ?_, ?_⟩
  · unfold Client.WaitForTransaction
    rw [Int.toNat_ofNat, waitLoop_first c txHash r (k - 1) N h (by omega) hno hat]
  · simp [List.filter_append, (pollEvents_count txHash (k - 1)).1, Event.isReceiptQuery]
    omega
  · simp [List.filter_append, (pollEvents_count txHash (k - 1)).2, Event.isSleep]

/-- C15, witness: five attempts against `thirdQueryNode`, whose third answer is
the first receipt. -/
theorem WaitForTransaction_first_witness :
    (Client.mk thirdQueryNode []).WaitForTransaction [1] ((5 : Nat) : Int) []
      = ((some { Status := 1, BlockNumber := 9, GasUsed := 21000 }, none),
          [] ++ pollEvents [1] (3 - 1) ++ [Event.TransactionReceipt [1]]) ∧
    ((pollEvents [1] (3 - 1) ++ [Event.TransactionReceipt [1]]).filter
      Event.isReceiptQuery).length = 3 ∧
    ((pollEvents [1] (3 - 1) ++ [Event.TransactionReceipt [1]]).filter
      Event.isSleep).length = 3 - 1 :=
  WaitForTransaction_first (Client.mk thirdQueryNode []) [1] 5 3 []
    { Status := 1, BlockNumber := 9, GasUsed := 21000 } (by decide) (by decide) (by decide)
    (by decide)

/-! ## Theorems: the pipeline of `SendTransaction` -/

/-- `EtherToWei` returns a value for every input. -/
theorem EtherToWei_total (e : BigFloat) : ∃ v, EtherToWei e = some v :=
  ⟨_, EtherToWei_eq e⟩

/-- `GetNonce` when the node answers. -/
theorem GetNonce_ok (c : Client) (a : Address) (h : List Event) (n : Nat)
    (hn : c.client.PendingNonceAt h a = .ok n) :
    c.GetNonce a h = ((n, none), h ++ [Event.PendingNonceAt a]) := by
  simp [Client.GetNonce, hn]

/-- `GetNonce` when the node fails. -/
theorem GetNonce_error (c : Client) (a : Address) (h : List Event) (e : GoError)
    (hn : c.client.PendingNonceAt h a = .error e) :
    c.GetNonce a h = ((0, some (.wrap "error getting nonce" e)), h ++ [Event.PendingNonceAt a]) := by
  simp [Client.GetNonce, hn]

/-- `GetGasPrice` when the node answers. -/
theorem GetGasPrice_ok (c : Client) (h : List Event) (g : Int)
    (hg : c.client.SuggestGasPrice h = .ok g) :
    c.GetGasPrice h = ((g, none), h ++ [Event.SuggestGasPrice]) := by
  simp [Client.GetGasPrice, hg]

/-- `GetGasPrice` when the node fails. -/
theorem GetGasPrice_error (c : Client) (h : List Event) (e : GoError)
    (hg : c.client.SuggestGasPrice h = .error e) :
    c.GetGasPrice h
      = ((0, some (.wrap "error getting gas price" e)), h ++ [Event.SuggestGasPrice]) := by
  simp [Client.GetGasPrice, hg]

/-- `EstimateGas` records one request, whatever the answer. -/
theorem EstimateGas_events (c : Client) (sender toAddr : Address) (value : Int) (data : Bytes)
    (h : List Event) :
    (c.EstimateGas sender toAddr value data h).2
      = h ++ [Event.EstimateGas { From := sender, To := toAddr, Value := value, Data := data }] := by
  cases hres : c.client.EstimateGas h
    { From := sender, To := toAddr, Value := value, Data := data } <;>
    simp [Client.EstimateGas, hres]

/-- `EstimateGas` when the node fails: the error is set. -/
theorem EstimateGas_error (c : Client) (sender toAddr : Address) (value : Int) (data : Bytes)
    (h : List Event) (e : GoError)
    (he : c.client.EstimateGas h { From := sender, To := toAddr, Value := value, Data := data }
      = .error e) :
    (c.EstimateGas sender toAddr value data h).1 = (0, some (.wrap "error estimating gas" e)) := by
  simp [Client.EstimateGas, he]

/-- `SignTransaction` asks the node for the network id once and either fails or
returns the transaction signed by `types.SignTx` with the key made from
`Client.keyBytes`. -/
theorem SignTransaction_cases (lib : Lib) (c : Client) (tx : Transaction) (privateKey : Int)
    (h : List Event) :
    (∃ err, c.SignTransaction lib tx privateKey h = ((none, some err), h ++ [Event.NetworkID]) ∧
      ((∃ e, c.client.NetworkID h = .error e ∧
          err = .wrap "error getting network ID for signing" (.wrap "error getting network ID" e)) ∨
        (∃ id e, c.client.NetworkID h = .ok id ∧ ToECDSA lib (Client.keyBytes privateKey) = .error e ∧
          err = .wrap "error converting private key" e) ∨
        (∃ id key e, c.client.NetworkID h = .ok id ∧
          ToECDSA lib (Client.keyBytes privateKey) = .ok key ∧ lib.SignTx tx id key = .error e ∧
          err = .wrap "error signing transaction" e))) ∨
    (∃ stx id key, c.SignTransaction lib tx privateKey h
        = ((some stx, none), h ++ [Event.NetworkID]) ∧
      c.client.NetworkID h = .ok id ∧ ToECDSA lib (Client.keyBytes privateKey) = .ok key ∧
      lib.SignTx tx id key = .ok stx) := by
  rw [SignTransaction_keyBytes]
  cases hid : c.client.NetworkID h with
  | error e =>
    refine Or.inl ⟨_, ?_, Or.inl ⟨e, rfl, rfl⟩⟩
    simp [Client.GetNetworkID, hid]
  | ok id =>
    have hnet : c.GetNetworkID h = ((id, none), h ++ [Event.NetworkID]) := by
      simp [Client.GetNetworkID, hid]
    rw [hnet]
    cases hk : ToECDSA lib (Client.keyBytes privateKey) with
    | error e =>
      exact Or.inl ⟨_, rfl, Or.inr (Or.inl ⟨id, e, rfl, rfl, rfl⟩)⟩
    | ok key =>
      cases hs : lib.SignTx tx id key with
      | error e =>
        refine Or.inl ⟨_, ?_, Or.inr (Or.inr ⟨id, key, e, rfl, rfl, hs, rfl⟩)⟩
        simp [hs]
      | ok stx =>
        refine Or.inr ⟨stx, id, key, ?_, rfl, rfl, hs⟩
        simp [hs]

/-- `SendTransaction` once the validation, the conversion and the two lookups
have succeeded: the rest is the signing and the submission of the transaction
built from the gathered values, with the gas limit taken from the estimate. -/
theorem SendTransaction_gathered (lib : Lib) (w : Wallet) (kp : KeyPair) (toAddress : List Char)
    (amount : BigFloat) (h : List Event) (amountWei : Int) (nonce : Nat) (gasPrice : Int)
    (hkp : w.KeyPair = some kp) (hvalid : IsValidAddress toAddress = true)
    (hwei : EtherToWei amount = some amountWei)
    (hn : w.Blockchain.client.PendingNonceAt h kp.Address = .ok nonce)
    (hg : w.Blockchain.client.SuggestGasPrice (h ++ [Event.PendingNonceAt kp.Address])
      = .ok gasPrice) :
    w.SendTransaction lib toAddress amount h =
      match w.Blockchain.SignTransaction lib
        (Wallet.pendingTx toAddress amountWei nonce gasPrice
          (gasLimitAfter (w.Blockchain.EstimateGas kp.Address (common_HexToAddress toAddress)
            amountWei [] (h ++ [Event.PendingNonceAt kp.Address] ++ [Event.SuggestGasPrice])).1))
        (SetString16 kp.GetPrivateKeyHex)
        (h ++ [Event.PendingNonceAt kp.Address] ++ [Event.SuggestGasPrice]
          ++ [Event.EstimateGas (Wallet.estimateMsg kp toAddress amountWei)]) with
      | ((_, some err), h4) => some (([], some (.wrap "error signing transaction" err)), h4)
      | ((none, none), _) => none
      | ((some signedTx, none), h4) =>
        match w.Blockchain.SendTransaction signedTx h4 with
        | (some err, h5) => some (([], some (.wrap "error sending transaction" err)), h5)
        | (none, h5) => some ((lib.TxHashHex signedTx, none), h5) := by
  have hev := EstimateGas_events w.Blockchain kp.Address (common_HexToAddress toAddress)
    amountWei [] (h ++ [Event.PendingNonceAt kp.Address] ++ [Event.SuggestGasPrice])
  unfold Wallet.SendTransaction
  simp only [hkp, hvalid, Bool.not_true, Bool.false_eq_true, if_false, hwei,
    GetNonce_ok _ _ _ _ hn, GetGasPrice_ok _ _ _ hg, hev]
  rfl

/-- `Client.SendTransaction` records the submission and wraps the error of the
node, if any. -/
theorem Client_SendTransaction_eq (c : Client) (stx : SignedTx) (h : List Event) :
    (c.client.SendTransaction h stx = none ∧
      c.SendTransaction stx h = (none, h ++ [Event.SendTransaction stx])) ∨
    (∃ e, c.client.SendTransaction h stx = some e ∧
      c.SendTransaction stx h
        = (some (.wrap "error sending transaction" e), h ++ [Event.SendTransaction stx])) := by
  cases hs : c.client.SendTransaction h stx with
  | none => exact Or.inl ⟨rfl, by simp [Client.SendTransaction, hs]⟩
  | some e => exact Or.inr ⟨e, rfl, by simp [Client.SendTransaction, hs]⟩

/-- Every run of `SendTransaction` ends in one of these ways, each with its
events: rejected input; failed nonce lookup; failed gas-price lookup; failed
signing; failed submission; success. -/
theorem SendTransaction_outcomes (lib : Lib) (w : Wallet) (toAddress : List Char)
    (amount : BigFloat) (h : List Event) :
    ((w.KeyPair = none ∨ IsValidAddress toAddress = false) ∧
      ∃ err, w.SendTransaction lib toAddress amount h = some (([], some err), h)) ∨
    (∃ kp e, w.KeyPair = some kp ∧ IsValidAddress toAddress = true ∧
      w.Blockchain.client.PendingNonceAt h kp.Address = .error e ∧
      w.SendTransaction lib toAddress amount h
        = some (([], some (.wrap "error getting nonce" (.wrap "error getting nonce" e))),
            h ++ [Event.PendingNonceAt kp.Address])) ∨
    (∃ kp nonce e, w.KeyPair = some kp ∧ IsValidAddress toAddress = true ∧
      w.Blockchain.client.PendingNonceAt h kp.Address = .ok nonce ∧
      w.Blockchain.client.SuggestGasPrice (h ++ [Event.PendingNonceAt kp.Address]) = .error e ∧
      w.SendTransaction lib toAddress amount h
        = some (([], some (.wrap "error getting gas price" (.wrap "error getting gas price" e))),
            h ++ [Event.PendingNonceAt kp.Address, Event.SuggestGasPrice])) ∨
    (∃ kp amountWei nonce gasPrice, w.KeyPair = some kp ∧ IsValidAddress toAddress = true ∧
      EtherToWei amount = some amountWei ∧
      w.Blockchain.client.PendingNonceAt h kp.Address = .ok nonce ∧
      w.Blockchain.client.SuggestGasPrice (h ++ [Event.PendingNonceAt kp.Address])
        = .ok gasPrice ∧
      ((∃ err, w.Blockchain.SignTransaction lib
            (Wallet.pendingTx toAddress amountWei nonce gasPrice
              (gasLimitAfter (w.Blockchain.EstimateGas kp.Address (common_HexToAddress toAddress)
                amountWei [] (h ++ [Event.PendingNonceAt kp.Address]
                  ++ [Event.SuggestGasPrice])).1))
            (SetString16 kp.GetPrivateKeyHex)
            (h ++ Wallet.gatherEvents kp toAddress amountWei)
          = ((none, some err), h ++ Wallet.gatherEvents kp toAddress amountWei
              ++ [Event.NetworkID]) ∧
        w.SendTransaction lib toAddress amount h
          = some (([], some (.wrap "error signing transaction" err)),
              h ++ Wallet.gatherEvents kp toAddress amountWei ++ [Event.NetworkID])) ∨
       (∃ stx, w.Blockchain.SignTransaction lib
            (Wallet.pendingTx toAddress amountWei nonce gasPrice
              (gasLimitAfter (w.Blockchain.EstimateGas kp.Address (common_HexToAddress toAddress)
                amountWei [] (h ++ [Event.PendingNonceAt kp.Address]
                  ++ [Event.SuggestGasPrice])).1))
            (SetString16 kp.GetPrivateKeyHex)
            (h ++ Wallet.gatherEvents kp toAddress amountWei)
          = ((some stx, none), h ++ Wallet.gatherEvents kp toAddress amountWei
              ++ [Event.NetworkID]) ∧
        ((∃ e, w.Blockchain.client.SendTransaction
              (h ++ Wallet.gatherEvents kp toAddress amountWei ++ [Event.NetworkID]) stx = some e ∧
            w.SendTransaction lib toAddress amount h
              = some (([], some (.wrap "error sending transaction"
                    (.wrap "error sending transaction" e))),
                  h ++ Wallet.gatherEvents kp toAddress amountWei ++ [Event.NetworkID]
                    ++ [Event.SendTransaction stx])) ∨
          (w.Blockchain.client.SendTransaction
              (h ++ Wallet.gatherEvents kp toAddress amountWei ++ [Event.NetworkID]) stx = none ∧
            w.SendTransaction lib toAddress amount h
              = some ((lib.TxHashHex stx, none),
                  h ++ Wallet.gatherEvents kp toAddress amountWei ++ [Event.NetworkID]
                    ++ [Event.SendTransaction stx])))))) := by
  cases hkp : w.KeyPair with
  | none =>
    refine Or.inl ⟨Or.inl rfl, GoError.errorf "wallet not initialized", ?_⟩
    simp [Wallet.SendTransaction, hkp]
  | some kp =>
    by_cases hvalid : IsValidAddress toAddress = true
    swap
    · have hv : IsValidAddress toAddress = false := by simpa using hvalid
      refine Or.inl ⟨Or.inr hv,
        GoError.errorf ("invalid recipient address: " ++ String.mk toAddress), ?_⟩
      simp [Wallet.SendTransaction, hkp, hv]
    obtain ⟨amountWei, hwei⟩ := EtherToWei_total amount
    cases hn : w.Blockchain.client.PendingNonceAt h kp.Address with
    | error e =>
      refine Or.inr (Or.inl ⟨kp, e, rfl, hvalid, hn, ?_⟩)
      simp [Wallet.SendTransaction, hkp, hvalid, hwei, GetNonce_error _ _ _ _ hn]
    | ok nonce =>
      cases hg : w.Blockchain.client.SuggestGasPrice (h ++ [Event.PendingNonceAt kp.Address]) with
      | error e =>
        refine Or.inr (Or.inr (Or.inl ⟨kp, nonce, e, rfl, hvalid, hn, hg, ?_⟩))
        simp [Wallet.SendTransaction, hkp, hvalid, hwei, GetNonce_ok _ _ _ _ hn,
          GetGasPrice_error _ _ _ hg]
      | ok gasPrice =>
        refine Or.inr (Or.inr (Or.inr ⟨kp, amountWei, nonce, gasPrice, rfl, hvalid, hwei, hn, hg, ?_⟩))
        have hgath := SendTransaction_gathered lib w kp toAddress amount h amountWei nonce gasPrice
          hkp hvalid hwei hn hg
        have hh : h ++ [Event.PendingNonceAt kp.Address] ++ [Event.SuggestGasPrice]
            ++ [Event.EstimateGas (Wallet.estimateMsg kp toAddress amountWei)]
            = h ++ Wallet.gatherEvents kp toAddress amountWei := by
          simp [Wallet.gatherEvents]
        rw [hh] at hgath
        rcases SignTransaction_cases lib w.Blockchain
            (Wallet.pendingTx toAddress amountWei nonce gasPrice
              (gasLimitAfter (w.Blockchain.EstimateGas kp.Address (common_HexToAddress toAddress)
                amountWei [] (h ++ [Event.PendingNonceAt kp.Address]
                  ++ [Event.SuggestGasPrice])).1))
            (SetString16 kp.GetPrivateKeyHex)
            (h ++ Wallet.gatherEvents kp toAddress amountWei) with
          ⟨err, hsig, -⟩ | ⟨stx, id, key, hsig, -, -, -⟩
        · refine Or.inl ⟨err, hsig, ?_⟩
          rw [hgath, hsig]
        · refine Or.inr ⟨stx, hsig, ?_⟩
          rw [hgath, hsig]
          rcases Client_SendTransaction_eq w.Blockchain stx
              (h ++ Wallet.gatherEvents kp toAddress amountWei ++ [Event.NetworkID]) with
            ⟨hnone, hsend⟩ | ⟨e, hsome, hsend⟩
          · exact Or.inr ⟨hnone, by simp only [hsend]⟩
          · exact Or.inl ⟨e, hsome, by simp only [hsend]⟩

/-- C12: let the wallet hold a key pair, the recipient be well formed, the
nonce and gas-price lookups succeed and the gas estimate fail with any error.
Then `SendTransaction` does not return at the estimate: the transaction it
builds has gas limit 21000, the gathered nonce and gas price, the recipient,
the converted value and an empty payload, and the rest of the call is the
signing and the submission of that transaction.  When signing succeeds, the
signed transaction is submitted to the node. -/
theorem SendTransaction_estimate_fallback (lib : Lib) (w : Wallet) (kp : KeyPair)
    (toAddress : List Char) (amount : BigFloat) (h : List Event) (amountWei : Int) (nonce : Nat)
    (gasPrice : Int) (e : GoError)
    (hkp : w.KeyPair = some kp) (hvalid : IsValidAddress toAddress = true)
    (hwei : EtherToWei amount = some amountWei)
    (hn : w.Blockchain.client.PendingNonceAt h kp.Address = .ok nonce)
    (hg : w.Blockchain.client.SuggestGasPrice (h ++ [Event.PendingNonceAt kp.Address])
      = .ok gasPrice)
    (he : w.Blockchain.client.EstimateGas
      (h ++ [Event.PendingNonceAt kp.Address] ++ [Event.SuggestGasPrice])
      (Wallet.estimateMsg kp toAddress amountWei) = .error e) :
    Wallet.pendingTx toAddress amountWei nonce gasPrice 21000
      = { nonce := nonce, toAddr := common_HexToAddress toAddress, value := amountWei,
          gasLimit := 21000, gasPrice := gasPrice, data := [] } ∧
    (w.SendTransaction lib toAddress amount h =
      match w.Blockchain.SignTransaction lib
        (Wallet.pendingTx toAddress amountWei nonce gasPrice 21000)
        (SetString16 kp.GetPrivateKeyHex) (h ++ Wallet.gatherEvents kp toAddress amountWei) with
      | ((_, some err), h4) => some (([], some (.wrap "error signing transaction" err)), h4)
      | ((none, none), _) => none
      | ((some signedTx, none), h4) =>
        match w.Blockchain.SendTransaction signedTx h4 with
        | (some err, h5) => some (([], some (.wrap "error sending transaction" err)), h5)
        | (none, h5) => some ((lib.TxHashHex signedTx, none), h5)) ∧
    (∀ id key stx,
      w.Blockchain.client.NetworkID (h ++ Wallet.gatherEvents kp toAddress amountWei) = .ok id →
      ToECDSA lib (FromECDSA kp.PrivateKey) = .ok key →
      lib.SignTx (Wallet.pendingTx toAddress amountWei nonce gasPrice 21000) id key = .ok stx →
      ∃ hash err, w.SendTransaction lib toAddress amount h
        = some ((hash, err), h ++ Wallet.gatherEvents kp toAddress amountWei
            ++ [Event.NetworkID, Event.SendTransaction stx])) := by
  have hgath := SendTransaction_gathered lib w kp toAddress amount h amountWei nonce gasPrice
    hkp hvalid hwei hn hg
  have hh : h ++ [Event.PendingNonceAt kp.Address] ++ [Event.SuggestGasPrice]
      ++ [Event.EstimateGas (Wallet.estimateMsg kp toAddress amountWei)]
      = h ++ Wallet.gatherEvents kp toAddress amountWei := by
    simp [Wallet.gatherEvents]
  have hlimit : gasLimitAfter (w.Blockchain.EstimateGas kp.Address
      (common_HexToAddress toAddress) amountWei []
      (h ++ [Event.PendingNonceAt kp.Address] ++ [Event.SuggestGasPrice])).1 = 21000 := by
    rw [EstimateGas_error _ _ _ _ _ _ e he]
    rfl
  rw [hh, hlimit] at hgath
  refine ⟨rfl, hgath, ?_⟩
  intro id key stx hid hkey hstx
  have hsig : w.Blockchain.SignTransaction lib
      (Wallet.pendingTx toAddress amountWei nonce gasPrice 21000)
      (SetString16 kp.GetPrivateKeyHex) (h ++ Wallet.gatherEvents kp toAddress amountWei)
      = ((some stx, none), h ++ Wallet.gatherEvents kp toAddress amountWei
          ++ [Event.NetworkID]) := by
    rw [SignTransaction_keyBytes, keyBytes_GetPrivateKeyHex]
    simp [Client.GetNetworkID, hid, hkey, hstx]
  rw [hgath, hsig]
  rcases Client_SendTransaction_eq w.Blockchain stx
      (h ++ Wallet.gatherEvents kp toAddress amountWei ++ [Event.NetworkID]) with
    ⟨-, hsend⟩ | ⟨e2, -, hsend⟩
  · refine ⟨lib.TxHashHex stx, none, ?_⟩
    simp only [hsend]
    simp
  · refine ⟨[], some (.wrap "error sending transaction" (.wrap "error sending transaction" e2)), ?_⟩
    simp only [hsend]
    simp

/-- C12, witness: `noEstimateWallet` sends half an ether to the recipient of
the tests; the estimate fails, and the transaction with gas limit 21000 is
signed and submitted. -/
theorem SendTransaction_estimate_fallback_witness :
    ∃ hash err, noEstimateWallet.SendTransaction toyLib testRecipient
        { neg := false, mant := 1, exp := -1, prec := 53 } []
      = some ((hash, err), [] ++ Wallet.gatherEvents toyKeyPair testRecipient 500000000000000000
          ++ [Event.NetworkID, Event.SendTransaction fallbackSignedTx]) :=
  (SendTransaction_estimate_fallback toyLib noEstimateWallet toyKeyPair testRecipient
    { neg := false, mant := 1, exp := -1, prec := 53 } [] 500000000000000000 7 1000000000
    (.errorf "execution reverted") rfl (by decide) (by decide) rfl rfl rfl).2.2
    11155111 toyKey fallbackSignedTx rfl rfl rfl

/-- C13: every run of `SendTransaction` returns, and among the events it adds
there is at most one submission.  If a signed transaction was submitted, then
the nonce and gas-price lookups had succeeded, the transaction is the one that
the signing step returned with a nil error, the submission is the last event
(there is no second attempt), and the result is the hash of that transaction
with a nil error when the node accepted it, and the empty hash with the
wrapped error of the node when it did not.  When the returned error is nil, a
signed transaction was submitted, the node accepted it and the returned string
is its hash; when the returned error is not nil, the returned string is
empty. -/
theorem SendTransaction_submit_once (lib : Lib) (w : Wallet) (toAddress : List Char)
    (amount : BigFloat) (h : List Event) :
    ∃ hash err new, w.SendTransaction lib toAddress amount h = some ((hash, err), h ++ new) ∧
      (new.filter Event.isSubmit).length ≤ 1 ∧
      (∀ stx, Event.SendTransaction stx ∈ new →
        (∃ kp amountWei nonce gasPrice tx, w.KeyPair = some kp ∧
          EtherToWei amount = some amountWei ∧
          w.Blockchain.client.PendingNonceAt h kp.Address = .ok nonce ∧
          w.Blockchain.client.SuggestGasPrice (h ++ [Event.PendingNonceAt kp.Address])
            = .ok gasPrice ∧
          w.Blockchain.SignTransaction lib tx (SetString16 kp.GetPrivateKeyHex)
              (h ++ Wallet.gatherEvents kp toAddress amountWei)
            = ((some stx, none), h ++ Wallet.gatherEvents kp toAddress amountWei
                ++ [Event.NetworkID]) ∧
          new = Wallet.gatherEvents kp toAddress amountWei
            ++ [Event.NetworkID, Event.SendTransaction stx]) ∧
        new.getLast? = some (Event.SendTransaction stx) ∧
        ((w.Blockchain.client.SendTransaction (h ++ new.dropLast) stx = none ∧
            hash = lib.TxHashHex stx ∧ err = none) ∨
          (∃ e, w.Blockchain.client.SendTransaction (h ++ new.dropLast) stx = some e ∧
            hash = [] ∧
            err = some (.wrap "error sending transaction"
              (.wrap "error sending transaction" e))))) ∧
      (err = none → ∃ stx, Event.SendTransaction stx ∈ new ∧ hash = lib.TxHashHex stx ∧
        w.Blockchain.client.SendTransaction (h ++ new.dropLast) stx = none) ∧
      (err ≠ none → hash = []) := by
  rcases SendTransaction_outcomes lib w toAddress amount h with
    ⟨-, err, hres⟩ | ⟨kp, e, -, -, -, hres⟩ | ⟨kp, nonce, e, -, -, -, -, hres⟩ |
    ⟨kp, amountWei, nonce, gasPrice, hkp, -, hwei, hn, hg, hrest⟩
  · exact ⟨[], some err, [], by simpa using hres, by simp, by simp, by simp, fun _ => rfl⟩
  · refine ⟨[], _, [Event.PendingNonceAt kp.Address], hres, by simp [Event.isSubmit], ?_,
      by simp, fun _ => rfl⟩
    intro stx hmem
    simp at hmem
  · refine ⟨[], _, [Event.PendingNonceAt kp.Address, Event.SuggestGasPrice], hres,
      by simp [Event.isSubmit], ?_, by simp, fun _ => rfl⟩
    intro stx hmem
    simp at hmem
  · rcases hrest with ⟨err, -, hres⟩ | ⟨stx, hsig, hsub⟩
    · refine ⟨[], _, Wallet.gatherEvents kp toAddress amountWei ++ [Event.NetworkID],
        by rw [hres, List.append_assoc], by simp [Wallet.gatherEvents, Event.isSubmit], ?_,
        by simp, fun _ => rfl⟩
      intro stx hmem
      simp [Wallet.gatherEvents] at hmem
    · have hlast : (Wallet.gatherEvents kp toAddress amountWei
          ++ [Event.NetworkID, Event.SendTransaction stx]).getLast?
          = some (Event.SendTransaction stx) := by
        simp [Wallet.gatherEvents]
      have hdrop : h ++ (Wallet.gatherEvents kp toAddress amountWei
          ++ [Event.NetworkID, Event.SendTransaction stx]).dropLast
          = h ++ Wallet.gatherEvents kp toAddress amountWei ++ [Event.NetworkID] := by
        simp [Wallet.gatherEvents]
      have hevents : h ++ Wallet.gatherEvents kp toAddress amountWei ++ [Event.NetworkID]
          ++ [Event.SendTransaction stx]
          = h ++ (Wallet.gatherEvents kp toAddress amountWei
            ++ [Event.NetworkID, Event.SendTransaction stx]) := by
        simp
      have hcount : ((Wallet.gatherEvents kp toAddress amountWei
          ++ [Event.NetworkID, Event.SendTransaction stx]).filter Event.isSubmit).length ≤ 1 := by
        simp [Wallet.gatherEvents, Event.isSubmit]
      have hstx : ∀ stx2, Event.SendTransaction stx2 ∈ Wallet.gatherEvents kp toAddress amountWei
          ++ [Event.NetworkID, Event.SendTransaction stx] → stx2 = stx := by
        intro stx2 hmem
        simpa [Wallet.gatherEvents] using hmem
      have hin : Event.SendTransaction stx ∈ Wallet.gatherEvents kp toAddress amountWei
          ++ [Event.NetworkID, Event.SendTransaction stx] := by
        simp
      rcases hsub with ⟨e, hnode, hres⟩ | ⟨hnode, hres⟩
      · refine ⟨[], _, _, by rw [hres, hevents], hcount, ?_, by simp, fun _ => rfl⟩
        intro stx2 hmem
        have := hstx stx2 hmem
        subst this
        refine ⟨⟨kp, amountWei, nonce, gasPrice, _, hkp, hwei, hn, hg, hsig, rfl⟩, hlast, ?_⟩
        rw [hdrop]
        exact Or.inr ⟨e, hnode, rfl, rfl⟩
      · refine ⟨lib.TxHashHex stx, none, _, by rw [hres, hevents], hcount, ?_, ?_,
          fun hc => absurd rfl hc⟩
        · intro stx2 hmem
          have := hstx stx2 hmem
          subst this
          refine ⟨⟨kp, amountWei, nonce, gasPrice, _, hkp, hwei, hn, hg, hsig, rfl⟩, hlast, ?_⟩
          rw [hdrop]
          exact Or.inl ⟨hnode, rfl, rfl⟩
        · intro _
          refine ⟨stx, hin, rfl, ?_⟩
          rw [hdrop]
          exact hnode

/-! ## Theorems: which gateway errors reach the caller -/

/-- An error surfaces itself. -/
theorem GoError.surfaces_self (e : GoError) : e.surfaces e = true := by
  cases e <;> simp [GoError.surfaces]

/-- Wrapping keeps what the wrapped error surfaces. -/
theorem GoError.surfaces_wrap (msg : String) (inner cause : GoError)
    (hs : inner.surfaces cause = true) : (GoError.wrap msg inner).surfaces cause = true := by
  simp [GoError.surfaces, hs]

/-- `Client.WaitForTransaction` returns either a receipt with a nil error or
no receipt with the not-confirmed error, which wraps nothing. -/
theorem Client_WaitForTransaction_result (c : Client) (txHash : Bytes) (maxAttempts : Int)
    (h : List Event) :
    (∃ r, (c.WaitForTransaction txHash maxAttempts h).1 = (some r, none)) ∨
    (c.WaitForTransaction txHash maxAttempts h).1
      = (none, some (.errorf ("transaction not confirmed after " ++ toString maxAttempts
          ++ " attempts"))) := by
  unfold Client.WaitForTransaction
  rcases hl : c.waitLoop txHash maxAttempts.toNat h with ⟨_ | r, h1⟩
  · exact Or.inr rfl
  · exact Or.inl ⟨r, rfl⟩

/-- C16, counterexample: every receipt query of `refusingNode` fails with
`connection refused`; `Wallet.WaitForTransaction` with two attempts returns the
not-confirmed error, which does not surface that error. -/
theorem WaitForTransaction_discards_error :
    refusingNode.TransactionReceipt [] (HexToHash "0x01".toList)
      = (none, some (.errorf "connection refused")) ∧
    (refusingWallet.WaitForTransaction "0x01".toList 2 []).1
      = (none, some (.wrap "error waiting for transaction confirmation"
          (.errorf ("transaction not confirmed after " ++ toString (2 : Int) ++ " attempts")))) ∧
    GoError.surfaces (.wrap "error waiting for transaction confirmation"
        (.errorf ("transaction not confirmed after " ++ toString (2 : Int) ++ " attempts")))
      (.errorf "connection refused") = false := by
  refine ⟨rfl, rfl, ?_⟩
  decide

/-- C16, amended: the errors of the nonce, gas-price and network-id lookups
and of the submission during `SendTransaction`, and of the receipt query of
`GetTransactionStatus`, make the operation return an error that wraps them.
`WaitForTransaction` does not pass on the errors of its receipt queries: it
returns either a nil error or the not-confirmed error, which wraps nothing. -/
theorem gateway_errors_surface (lib : Lib) (w : Wallet) (toAddress : List Char)
    (amount : BigFloat) (h : List Event) (txHash : List Char) (maxAttempts : Int) :
    (∀ kp e, w.KeyPair = some kp → IsValidAddress toAddress = true →
      w.Blockchain.client.PendingNonceAt h kp.Address = .error e →
      ∃ err new, w.SendTransaction lib toAddress amount h = some (([], some err), new) ∧
        err.surfaces e = true) ∧
    (∀ kp nonce e, w.KeyPair = some kp → IsValidAddress toAddress = true →
      w.Blockchain.client.PendingNonceAt h kp.Address = .ok nonce →
      w.Blockchain.client.SuggestGasPrice (h ++ [Event.PendingNonceAt kp.Address]) = .error e →
      ∃ err new, w.SendTransaction lib toAddress amount h = some (([], some err), new) ∧
        err.surfaces e = true) ∧
    (∀ kp amountWei nonce gasPrice e, w.KeyPair = some kp → IsValidAddress toAddress = true →
      EtherToWei amount = some amountWei →
      w.Blockchain.client.PendingNonceAt h kp.Address = .ok nonce →
      w.Blockchain.client.SuggestGasPrice (h ++ [Event.PendingNonceAt kp.Address])
        = .ok gasPrice →
      w.Blockchain.client.NetworkID (h ++ Wallet.gatherEvents kp toAddress amountWei)
        = .error e →
      ∃ err new, w.SendTransaction lib toAddress amount h = some (([], some err), new) ∧
        err.surfaces e = true) ∧
    (∀ hash err new stx e, w.SendTransaction lib toAddress amount h = some ((hash, err), h ++ new) →
      Event.SendTransaction stx ∈ new →
      w.Blockchain.client.SendTransaction (h ++ new.dropLast) stx = some e →
      hash = [] ∧ ∃ err2, err = some err2 ∧ err2.surfaces e = true) ∧
    (∀ r e, w.Blockchain.client.TransactionReceipt h (HexToHash txHash) = (r, some e) →
      ∃ err, (w.GetTransactionStatus txHash h).1 = (none, some err) ∧ err.surfaces e = true) ∧
    ((w.WaitForTransaction txHash maxAttempts h).1.2 = none ∨
      (w.WaitForTransaction txHash maxAttempts h).1
        = (none, some (.wrap "error waiting for transaction confirmation"
            (.errorf ("transaction not confirmed after " ++ toString maxAttempts
              ++ " attempts"))))) := by
  refine ⟨?_, ?_, ?_, ?_, ?_, ?_⟩
  · intro kp e hkp hvalid hn
    obtain ⟨amountWei, hwei⟩ := EtherToWei_total amount
    refine ⟨.wrap "error getting nonce" (.wrap "error getting nonce" e),
      h ++ [Event.PendingNonceAt kp.Address], ?_, ?_⟩
    · simp only [Wallet.SendTransaction, hkp, hvalid, Bool.not_true, Bool.false_eq_true, if_false,
        hwei, GetNonce_error _ _ _ _ hn]
    · exact GoError.surfaces_wrap _ _ _ (GoError.surfaces_wrap _ _ _ (GoError.surfaces_self e))
  · intro kp nonce e hkp hvalid hn hg
    obtain ⟨amountWei, hwei⟩ := EtherToWei_total amount
    refine ⟨.wrap "error getting gas price" (.wrap "error getting gas price" e),
      h ++ [Event.PendingNonceAt kp.Address] ++ [Event.SuggestGasPrice], ?_, ?_⟩
    · simp only [Wallet.SendTransaction, hkp, hvalid, Bool.not_true, Bool.false_eq_true, if_false,
        hwei, GetNonce_ok _ _ _ _ hn, GetGasPrice_error _ _ _ hg]
    · exact GoError.surfaces_wrap _ _ _ (GoError.surfaces_wrap _ _ _ (GoError.surfaces_self e))
  · intro kp amountWei nonce gasPrice e hkp hvalid hwei hn hg hid
    have hgath := SendTransaction_gathered lib w kp toAddress amount h amountWei nonce gasPrice
      hkp hvalid hwei hn hg
    have hh : h ++ [Event.PendingNonceAt kp.Address] ++ [Event.SuggestGasPrice]
        ++ [Event.EstimateGas (Wallet.estimateMsg kp toAddress amountWei)]
        = h ++ Wallet.gatherEvents kp toAddress amountWei := by
      simp [Wallet.gatherEvents]
    rw [hh] at hgath
    refine ⟨.wrap "error signing transaction" (.wrap "error getting network ID for signing"
      (.wrap "error getting network ID" e)),
      h ++ Wallet.gatherEvents kp toAddress amountWei ++ [Event.NetworkID], ?_, ?_⟩
    · rw [hgath, SignTransaction_keyBytes]
      simp only [Client.GetNetworkID, hid]
    · exact GoError.surfaces_wrap _ _ _ (GoError.surfaces_wrap _ _ _
        (GoError.surfaces_wrap _ _ _ (GoError.surfaces_self e)))
  · intro hash err new stx e hres hmem hnode
    rcases SendTransaction_outcomes lib w toAddress amount h with
      ⟨-, err1, hres1⟩ | ⟨kp, e1, -, -, -, hres1⟩ | ⟨kp, nonce, e1, -, -, -, -, hres1⟩ |
      ⟨kp, amountWei, nonce, gasPrice, hkp, -, hwei, hn, hg, hrest⟩
    · rw [hres1] at hres
      simp only [Option.some.injEq, Prod.mk.injEq] at hres
      have : new = [] := by simpa using hres.2.symm
      subst this
      simp at hmem
    · rw [hres1] at hres
      simp only [Option.some.injEq, Prod.mk.injEq] at hres
      have : new = [Event.PendingNonceAt kp.Address] := by simpa using hres.2.symm
      subst this
      simp at hmem
    · rw [hres1] at hres
      simp only [Option.some.injEq, Prod.mk.injEq] at hres
      have : new = [Event.PendingNonceAt kp.Address, Event.SuggestGasPrice] := by
        simpa using hres.2.symm
      subst this
      simp at hmem
    · rcases hrest with ⟨err1, -, hres1⟩ | ⟨stx1, -, hsub⟩
      · rw [hres1] at hres
        simp only [Option.some.injEq, Prod.mk.injEq] at hres
        have : new = Wallet.gatherEvents kp toAddress amountWei ++ [Event.NetworkID] := by
          have := hres.2.symm
          rw [List.append_assoc] at this
          exact List.append_cancel_left this
        subst this
        simp [Wallet.gatherEvents] at hmem
      · have hnew : ∀ r, w.SendTransaction lib toAddress amount h
            = some (r, h ++ Wallet.gatherEvents kp toAddress amountWei ++ [Event.NetworkID]
                ++ [Event.SendTransaction stx1]) →
            new = Wallet.gatherEvents kp toAddress amountWei
              ++ [Event.NetworkID, Event.SendTransaction stx1] := by
          intro r hr
          rw [hr] at hres
          simp only [Option.some.injEq, Prod.mk.injEq] at hres
          have := hres.2.symm
          rw [List.append_assoc, List.append_assoc] at this
          simpa using List.append_cancel_left this
        have hfin : ∀ r, w.SendTransaction lib toAddress amount h
            = some (r, h ++ Wallet.gatherEvents kp toAddress amountWei ++ [Event.NetworkID]
                ++ [Event.SendTransaction stx1]) →
            stx = stx1 ∧ h ++ new.dropLast
              = h ++ Wallet.gatherEvents kp toAddress amountWei ++ [Event.NetworkID] := by
          intro r hr
          have hn2 := hnew r hr
          subst hn2
          constructor
          · simpa [Wallet.gatherEvents] using hmem
          · simp [Wallet.gatherEvents]
        rcases hsub with ⟨e1, hnode1, hres1⟩ | ⟨hnode1, hres1⟩
        · obtain ⟨hs, hd⟩ := hfin _ hres1
          subst hs
          rw [hd, hnode1] at hnode
          cases hnode
          rw [hres1] at hres
          simp only [Option.some.injEq, Prod.mk.injEq] at hres
          refine ⟨hres.1.1.symm, _, hres.1.2.symm, ?_⟩
          exact GoError.surfaces_wrap _ _ _ (GoError.surfaces_wrap _ _ _ (GoError.surfaces_self _))
        · obtain ⟨hs, hd⟩ := hfin _ hres1
          subst hs
          rw [hd, hnode1] at hnode
          cases hnode
  · intro r e hr
    refine ⟨.wrap "error getting transaction status" (.wrap "error getting transaction receipt" e),
      ?_, ?_⟩
    · simp only [Wallet.GetTransactionStatus, Client.GetTransactionReceipt, hr]
    · exact GoError.surfaces_wrap _ _ _ (GoError.surfaces_wrap _ _ _ (GoError.surfaces_self e))
  · rcases Client_WaitForTransaction_result w.Blockchain (HexToHash txHash) maxAttempts h with
      ⟨r, hr⟩ | hr
    · left
      rcases hc : w.Blockchain.WaitForTransaction (HexToHash txHash) maxAttempts h with ⟨p, h1⟩
      rw [hc] at hr
      simp only at hr
      subst hr
      simp only [Wallet.WaitForTransaction, hc]
    · right
      rcases hc : w.Blockchain.WaitForTransaction (HexToHash txHash) maxAttempts h with ⟨p, h1⟩
      rw [hc] at hr
      simp only at hr
      subst hr
      simp only [Wallet.WaitForTransaction, hc]

/-- C16, witness: `refusingWallet`, whose node refuses every receipt query;
`GetTransactionStatus` returns an error that wraps the refusal. -/
theorem gateway_errors_surface_witness :
    ∃ err, (refusingWallet.GetTransactionStatus "0x01".toList []).1 = (none, some err) ∧
      err.surfaces (.errorf "connection refused") = true :=
  (gateway_errors_surface toyLib refusingWallet testRecipient
    { neg := false, mant := 1, exp := -1, prec := 53 } [] "0x01".toList 2).2.2.2.2.1
    none (.errorf "connection refused") rfl

/-! ## Theorems: persistence -/

/-- C17, counterexample: `slashWallet` saved on the empty store.  `MkdirAll`
creates the directory `wallets/new`, `WriteFile` fails on `wallets/new/`, and
`SaveWallet` returns an error while the store holds the new directory. -/
theorem SaveWallet_leaves_directory :
    Wallet.SaveWallet toyLib toyOS slashWallet emptyStore
      = (some (.wrap "error writing wallet file" (.errorf "is a directory")),
          { dirs := ["wallets/new".toList], files := [] }) ∧
    ({ dirs := ["wallets/new".toList], files := [] } : ToyStore) ≠ emptyStore := by
  decide

/-- C17, amended: `SaveWallet` undoes nothing.  With a nil key pair, or when
serialising fails, it returns an error and the store it was given.  When
`os.MkdirAll` fails it returns an error and the store that the failed call
left; when `os.WriteFile` fails it returns an error and the store that
`MkdirAll` and the failed `WriteFile` left.  `GenerateNewWallet` returns the
store untouched when key generation fails and otherwise the store that
`SaveWallet` left. -/
theorem SaveWallet_store {σ : Type} (lib : Lib) (os : OS σ) (w : Wallet) (s : σ)
    (gen : Except GoError PrivateKey) :
    (w.KeyPair = none →
      Wallet.SaveWallet lib os w s = (some (.errorf "wallet not initialized"), s)) ∧
    (∀ kp e, w.KeyPair = some kp → os.MarshalIndent (kp.walletData lib) = .error e →
      Wallet.SaveWallet lib os w s = (some (.wrap "error serializing wallet data" e), s)) ∧
    (∀ kp data e s1, w.KeyPair = some kp → os.MarshalIndent (kp.walletData lib) = .ok data →
      os.MkdirAll s (os.Dir w.WalletFile) 493 = (some e, s1) →
      Wallet.SaveWallet lib os w s = (some (.wrap "error creating directory" e), s1)) ∧
    (∀ kp data e s1 s2, w.KeyPair = some kp → os.MarshalIndent (kp.walletData lib) = .ok data →
      os.MkdirAll s (os.Dir w.WalletFile) 493 = (none, s1) →
      os.WriteFile s1 w.WalletFile data 384 = (some e, s2) →
      Wallet.SaveWallet lib os w s = (some (.wrap "error writing wallet file" e), s2)) ∧
    (∀ e, gen = .error e →
      Wallet.GenerateNewWallet lib os gen w s
        = (some (.wrap "error generating keys" (.wrap "error generating private key" e)), w, s)) ∧
    (∀ key, gen = .ok key →
      (Wallet.GenerateNewWallet lib os gen w s).2.2
        = (Wallet.SaveWallet lib os
            { w with KeyPair := some (KeyPair.mk key key.PublicKey
                (PubkeyToAddress lib key.PublicKey)) } s).2) := by
  refine ⟨?_, ?_, ?_, ?_, ?_, ?_⟩
  · intro hkp
    simp only [Wallet.SaveWallet, hkp]
  · intro kp e hkp hm
    simp only [Wallet.SaveWallet, hkp, hm]
  · intro kp data e s1 hkp hm hd
    simp only [Wallet.SaveWallet, hkp, hm, hd]
  · intro kp data e s1 s2 hkp hm hd hw
    simp only [Wallet.SaveWallet, hkp, hm, hd, hw]
  · intro e hg
    subst hg
    simp only [Wallet.GenerateNewWallet, GenerateKeyPair]
  · intro key hg
    subst hg
    simp only [Wallet.GenerateNewWallet, GenerateKeyPair]
    split <;> simp_all

/-- C17, witness: a wallet without key pair on the empty store. -/
theorem SaveWallet_store_witness :
    Wallet.SaveWallet toyLib toyOS { toyWallet with KeyPair := none } emptyStore
      = (some (.errorf "wallet not initialized"), emptyStore) :=
  (SaveWallet_store toyLib toyOS { toyWallet with KeyPair := none } emptyStore
    (.ok toyKey)).1 rfl

/-- Decoding the hexadecimal text of bytes gives the bytes back. -/
theorem hexDecode_hexEncode (bs : Bytes) (hb : ∀ b ∈ bs, b < 256) :
    hexDecode (hexEncode bs) = (bs, none) := by
  induction bs with
  | nil => rfl
  | cons b rest ih =>
    have hb1 : b < 256 := hb b (by simp)
    have ih2 := ih (fun x hx => hb x (by simp [hx]))
    have h1 : b / 16 % 16 = b / 16 := Nat.mod_eq_of_lt (by omega)
    have h2 : 16 * (b / 16) + b % 16 = b := by omega
    simp only [hexEncode, hexDecode, hexVal_hexDigit, ih2, h1, h2]

/-- The big-endian value of bytes followed by one more byte. -/
theorem bytesToNat_append_singleton (bs : Bytes) (b : Nat) :
    bytesToNat (bs ++ [b]) = 256 * bytesToNat bs + b := by
  simp [bytesToNat, List.foldl_append]

/-- The big-endian value of the `n` padded bytes of `v` is `v` modulo
`256^n`. -/
theorem bytesToNat_paddedBytes (n : Nat) : ∀ v, bytesToNat (paddedBytes n v) = v % 256 ^ n := by
  induction n with
  | zero => intro v; simp [paddedBytes, bytesToNat, Nat.mod_one]
  | succ m ih =>
    intro v
    rw [paddedBytes_succ, bytesToNat_append_singleton, ih, pow_succ,
      Nat.mul_comm (256 ^ m) 256, Nat.mod_mul]
    omega

/-- The record that `SaveWallet` builds from a key pair passes the checks of
`restoreKeyPair`, which gives the key pair back, provided the scalar lies
strictly between 0 and the group order, the public key is the point of the
scalar and the address is the one derived from the public key. -/
theorem restoreKeyPair_walletData (lib : Lib) (w : Wallet) (kp : KeyPair)
    (hpos : 0 < kp.PrivateKey.D) (hlt : kp.PrivateKey.D < secp256k1N)
    (hpoint : kp.PrivateKey.PublicKey = lib.ScalarBaseMult kp.PrivateKey.D)
    (hpub : kp.PublicKey = kp.PrivateKey.PublicKey)
    (haddr : kp.Address = PubkeyToAddress lib kp.PublicKey) :
    w.restoreKeyPair lib (kp.walletData lib) = (some kp, none) := by
  have hN : secp256k1N < 256 ^ 32 := by decide
  have hdec : hexDecode (kp.walletData lib).PrivateKey = (paddedBytes 32 kp.PrivateKey.D, none) :=
    hexDecode_hexEncode _ (paddedBytes_lt 32 _)
  have hval : bytesToNat (paddedBytes 32 kp.PrivateKey.D) = kp.PrivateKey.D := by
    rw [bytesToNat_paddedBytes]
    exact Nat.mod_eq_of_lt (lt_trans hlt hN)
  have hkey : ToECDSA lib (paddedBytes 32 kp.PrivateKey.D) = .ok kp.PrivateKey := by
    rw [ToECDSA_eq_ok_iff]
    refine ⟨paddedBytes_length 32 _, by rw [hval]; exact hpos, by rw [hval]; exact hlt, ?_⟩
    rw [hval, ← hpoint]
  have hA : (kp.walletData lib).Address = Address.Hex lib kp.Address := rfl
  simp only [Wallet.restoreKeyPair, hdec, hkey, hA]
  rw [← hpub, ← haddr]
  simp

/-- What a successful `SaveWallet` has done: it has serialised the record of
the key pair, `MkdirAll` has succeeded on the directory of the wallet file, and
`WriteFile` has written the serialised bytes to the wallet file, leaving the
store that `SaveWallet` returns. -/
theorem SaveWallet_success {σ : Type} (lib : Lib) (os : OS σ) (w : Wallet) (kp : KeyPair)
    (s s1 : σ) (hkp : w.KeyPair = some kp)
    (hsave : Wallet.SaveWallet lib os w s = (none, s1)) :
    ∃ data sm, os.MarshalIndent (kp.walletData lib) = .ok data ∧
      os.MkdirAll s (os.Dir w.WalletFile) 493 = (none, sm) ∧
      os.WriteFile sm w.WalletFile data 384 = (none, s1) := by
  simp only [Wallet.SaveWallet, hkp] at hsave
  cases hm : os.MarshalIndent (kp.walletData lib) with
  | error e => rw [hm] at hsave; simp at hsave
  | ok data =>
    rw [hm] at hsave
    simp only at hsave
    rcases hd : os.MkdirAll s (os.Dir w.WalletFile) 493 with ⟨_ | e, sm⟩
    · rw [hd] at hsave
      simp only at hsave
      rcases hw : os.WriteFile sm w.WalletFile data 384 with ⟨_ | e, s2⟩
      · rw [hw] at hsave
        simp only [Prod.mk.injEq, true_and] at hsave
        subst hsave
        exact ⟨data, sm, rfl, rfl, hw⟩
      · rw [hw] at hsave; simp at hsave
    · rw [hd] at hsave; simp at hsave

/-- C11: let `kp` be a key pair produced by `GenerateKeyPair` from a generated
key whose scalar lies strictly between 0 and the group order and whose public
key is the point of the scalar.  Let the file system read a file back as it
was written (after a successful `os.WriteFile` the file exists and
`os.ReadFile` returns the written bytes), and let the JSON codec decode the
encoded record of `kp` to that record.  Then, whenever `SaveWallet` succeeds on
`kp`, `LoadWallet` on the same file and the store that `SaveWallet` left
succeeds, and the wallet holds exactly `kp`: the same private key and the same
address. -/
theorem SaveWallet_LoadWallet {σ : Type} (lib : Lib) (os : OS σ)
    (gen : Except GoError PrivateKey) (kp : KeyPair) (w w2 : Wallet) (s s1 : σ)
    (hgen : GenerateKeyPair lib gen = (some kp, none))
    (hpos : 0 < kp.PrivateKey.D) (hlt : kp.PrivateKey.D < secp256k1N)
    (hpoint : kp.PrivateKey.PublicKey = lib.ScalarBaseMult kp.PrivateKey.D)
    (hwrite : ∀ t name data perm t1, os.WriteFile t name data perm = (none, t1) →
      os.IsNotExist (os.Stat t1 name) = false ∧ os.ReadFile t1 name = .ok data)
    (hjson : ∀ data, os.MarshalIndent (kp.walletData lib) = .ok data →
      os.Unmarshal data = .ok (kp.walletData lib))
    (hsave : Wallet.SaveWallet lib os { w with KeyPair := some kp } s = (none, s1))
    (hfile : w2.WalletFile = w.WalletFile) :
    Wallet.LoadWallet lib os w2 s1 = (none, { w2 with KeyPair := some kp }) ∧
    (kp.walletData lib).PrivateKey = kp.GetPrivateKeyHex ∧
    (kp.walletData lib).Address = kp.GetAddressHex lib := by
  -- the key pair has the shape that `GenerateKeyPair` gives it
  obtain ⟨hpub, haddr⟩ : kp.PublicKey = kp.PrivateKey.PublicKey ∧
      kp.Address = PubkeyToAddress lib kp.PublicKey := by
    cases gen with
    | error e => simp [GenerateKeyPair] at hgen
    | ok key =>
      simp only [GenerateKeyPair, Prod.mk.injEq, Option.some.injEq, and_true] at hgen
      subst hgen
      exact ⟨rfl, rfl⟩
  -- the save has written the serialised record to the wallet file
  obtain ⟨data, sm, hdata, -, hw⟩ :=
    SaveWallet_success lib os { w with KeyPair := some kp } kp s s1 rfl hsave
  obtain ⟨hstat, hread⟩ := hwrite sm w.WalletFile data 384 s1 hw
  have hrestore := restoreKeyPair_walletData lib w2 kp hpos hlt hpoint hpub haddr
  refine ⟨?_, rfl, rfl⟩
  simp only [Wallet.LoadWallet, hfile, hstat, Bool.false_eq_true, if_false, hread,
    hjson data hdata, hrestore]

/-- In `toyOS` a file that was written exists and is read back as written. -/
theorem toyOS_write_read (t : ToyStore) (name : List Char) (data : Bytes) (perm : Nat)
    (t1 : ToyStore) (hw : toyOS.WriteFile t name data perm = (none, t1)) :
    toyOS.IsNotExist (toyOS.Stat t1 name) = false ∧ toyOS.ReadFile t1 name = .ok data := by
  simp only [toyOS] at hw
  split at hw
  · simp at hw
  · simp only [Prod.mk.injEq, true_and] at hw
    subst hw
    simp [toyOS]

/-- C11, witness: `toyKeyPair` saved by `toyWallet` on the empty store with
`toyOS`, and loaded again. -/
theorem SaveWallet_LoadWallet_witness :
    Wallet.LoadWallet toyLib toyOS toyWallet
        (Wallet.SaveWallet toyLib toyOS { toyWallet with KeyPair := some toyKeyPair }
          emptyStore).2
      = (none, { toyWallet with KeyPair := some toyKeyPair }) ∧
    (toyKeyPair.walletData toyLib).PrivateKey = toyKeyPair.GetPrivateKeyHex ∧
    (toyKeyPair.walletData toyLib).Address = toyKeyPair.GetAddressHex toyLib :=
  SaveWallet_LoadWallet toyLib toyOS (.ok toyKey) toyKeyPair toyWallet toyWallet emptyStore _
    rfl (by decide) (by decide) rfl toyOS_write_read
    (fun data hd => by cases hd; rfl) rfl rfl

/-! ## Theorems: the two conversions from wei to ether -/

/-- The last digit of `fixedDigits` is the digit of the units. -/
theorem fixedDigits_succ (k n : Nat) :
    fixedDigits (k + 1) n = fixedDigits k (n / 10) ++ [digitChar n] := by
  induction k with
  | zero => simp [fixedDigits]
  | succ m ih =>
    have h1 : fixedDigits (m + 1 + 1) n = digitChar (n / 10 ^ (m + 1)) :: fixedDigits (m + 1) n := rfl
    have h2 : fixedDigits (m + 1) (n / 10)
        = digitChar (n / 10 / 10 ^ m) :: fixedDigits m (n / 10) := rfl
    rw [h1, ih, h2, Nat.div_div_eq_div_mul, pow_succ, Nat.mul_comm 10 (10 ^ m)]
    rfl

/-- The numeral of `n` is made of its last `k` digits for some `k` with
`n < 10^k`. -/
theorem natDigitsAux_fixed (f : Nat) : ∀ n acc, n < 10 ^ (f + 1) →
    ∃ k, 0 < k ∧ n < 10 ^ k ∧ natDigitsAux (f + 1) n acc = fixedDigits k n ++ acc := by
  induction f with
  | zero =>
    intro n acc hn
    have h : n < 10 := by simpa using hn
    unfold natDigitsAux
    rw [if_pos h]
    exact ⟨1, by decide, by simpa using h, by simp [fixedDigits]⟩
  | succ g ih =>
    intro n acc hn
    unfold natDigitsAux
    by_cases h : n < 10
    · rw [if_pos h]
      exact ⟨1, by decide, by simpa using h, by simp [fixedDigits]⟩
    · rw [if_neg h]
      have hdiv : n / 10 < 10 ^ (g + 1) := by
        rw [pow_succ] at hn
        omega
      obtain ⟨k, hk, hlt, heq⟩ := ih (n / 10) (digitChar n :: acc) hdiv
      refine ⟨k + 1, by omega, ?_, ?_⟩
      · rw [pow_succ]; omega
      · rw [heq, fixedDigits_succ]
        simp

/-- `SetString10` reads the numeral of a natural number back as that number. -/
theorem SetString10_natDigits (n : Nat) : SetString10 (natDigits n) = some (n : Int) := by
  obtain ⟨k, hk, hlt, heq⟩ := natDigitsAux_fixed n n []
    (lt_trans (Nat.lt_pow_self (by decide) n)
      (Nat.pow_lt_pow_right (by decide) (Nat.lt_succ_self n)))
  have hnat : natDigits n = fixedDigits k n := by
    rw [natDigits, heq, List.append_nil]
  obtain ⟨j, rfl⟩ : ∃ j, k = j + 1 := ⟨k - 1, by omega⟩
  have hp := parseDigits_fixedDigits (j + 1) n 0
  rw [hnat]
  rw [show fixedDigits (j + 1) n = digitChar (n / 10 ^ j) :: fixedDigits j n from rfl] at hp ⊢
  rw [SetString10_digit, hp]
  simp [Nat.mod_eq_of_lt hlt]

/-- For a balance below `2^64` wei, `GetBalanceInEther` returns the value and
precision that `WeiToEther` returns: the parsed text is an integer of at most
64 bits, which a float of precision 64 holds exactly. -/
theorem GetBalanceInEther_eq_WeiToEther (c : Client) (address : Address) (h : List Event)
    (b : Nat) (hb : b < 2 ^ 64) (hbal : c.client.BalanceAt h address = .ok (b : Int)) :
    (c.GetBalanceInEther address h).1 = (WeiToEther (b : Int), none) := by
  have hlen : BitLen b ≤ 64 := bitLenAux_le b b 64 hb
  have hstr : bigIntString (b : Int) = natDigits b := by
    simp [bigIntString]
  have hset : BigFloat.SetString (bigIntString (b : Int)) = BigFloat.SetInt (b : Int) := by
    rw [hstr]
    simp only [BigFloat.SetString, SetString10_natDigits, BigFloat.roundInt, BigFloat.SetInt,
      Int.natAbs_ofNat, if_pos hlen]
    simp [hlen]
  simp only [Client.GetBalanceInEther, Client.GetBalance, hbal, hset, WeiToEther]

/-- C20, at the failing input: the node reports the balance
`20000000000000000001` wei, a number of 65 bits.  `GetBalanceInEther` rounds
the parsed text to 64 bits, which gives `2 * 10^19`, and returns exactly 20;
`WeiToEther` returns `23058430092136939521 * 2^-60` with precision 65.  The
two values differ, and so do their texts with 18 fraction digits. -/
theorem GetBalanceInEther_differs :
    ((Client.mk richNode []).GetBalanceInEther [] []).1
      = (some { neg := false, mant := 11529215046068469760, exp := -59, prec := 64 }, none) ∧
    WeiToEther 20000000000000000001
      = some { neg := false, mant := 23058430092136939521, exp := -60, prec := 65 } ∧
    BigFloat.sameValue { neg := false, mant := 11529215046068469760, exp := -59, prec := 64 }
      { neg := false, mant := 23058430092136939521, exp := -60, prec := 65 } = false ∧
    BigFloat.Text_f { neg := false, mant := 11529215046068469760, exp := -59, prec := 64 } 18
      = "20.000000000000000000".toList ∧
    BigFloat.Text_f { neg := false, mant := 23058430092136939521, exp := -60, prec := 65 } 18
      = "20.000000000000000001".toList := by
  decide

end CryptoWallet
